import Mathlib

/-! Strassen matrix multiplication service (`go_projekt/main.go`).

A shallow embedding of the Go program.  Go slices are reference values, so the
embedding keeps an explicit heap of backing arrays: a row of a matrix is a slice
header (backing array, offset, length, capacity) and every function that
allocates or writes passes the heap along.  Run-time panics (index or slice
bound out of range) and exhausted recursion fuel are explicit outcomes.
-/

namespace GoProjekt

/-! ## Definitions -/

/-! ### Outcomes -/

/-- Outcome of running a piece of Go code: a value, a run-time panic, or the
recursion budget of the model running out. -/
inductive Res (α : Type) where
  | ok (a : α)
  | panic
  | outOfFuel
  deriving DecidableEq, Repr

/-- Sequencing of outcomes: the first failure stops the computation. -/
def Res.bind {α β : Type} (x : Res α) (f : α → Res β) : Res β :=
  match x with
  | .ok a => f a
  | .panic => .panic
  | .outOfFuel => .outOfFuel

instance : Monad Res where
  pure := Res.ok
  bind := Res.bind

/-! ### Machine integers -/

/-- Two's-complement wrap-around of an integer into the `int64` range. -/
def wrap64 (x : Int) : Int :=
  (x + 9223372036854775808) % 18446744073709551616 - 9223372036854775808

/-- The `int64` range. -/
def InInt64 (x : Int) : Prop :=
  -9223372036854775808 ≤ x ∧ x ≤ 9223372036854775807

/-- The 64-bit pattern of an integer, as an unsigned number. -/
def toU64 (x : Int) : Nat :=
  (x % 18446744073709551616).toNat

/-- Bitwise `&` of two `int64` values: the conjunction of their 64-bit patterns,
read back as a signed number. -/
def and64 (a b : Int) : Int :=
  wrap64 (Int.ofNat (toU64 a &&& toU64 b))

/-! ### Slices and the heap -/

/-- A Go slice header of type `[]int64`: the backing array it points into, the
offset of its first element, its length and its capacity. -/
structure Slice where
  arr : Nat
  off : Nat
  len : Nat
  cap : Nat
  deriving DecidableEq, Repr

/-- The heap: the backing arrays of all `[]int64` slices, by identifier. -/
abbrev Heap := List (List Int)

/-- The Go type `Matrix` (`[][]int64`): its row headers.  No function of the
program writes to an outer slice it did not just make, so the outer slice is a
value. -/
abbrev Matrix := List Slice

/-- The elements a slice currently shows: `len` cells of its backing array from
`off` on. -/
def rowVal (h : Heap) (s : Slice) : List Int :=
  ((h.getD s.arr []).drop s.off).take s.len

/-- The values of a matrix, row by row. -/
def matVal (h : Heap) (M : Matrix) : List (List Int) :=
  M.map (rowVal h)

/-- Entry `(i, j)` of a matrix of values (`0` outside). -/
def entry (V : List (List Int)) (i j : Nat) : Int :=
  (V.getD i []).getD j 0

/-- Go `s[j]` on a row: panics unless `j < len(s)`. -/
def Slice.index (h : Heap) (s : Slice) (j : Nat) : Res Int :=
  if j < s.len then
    match (h.getD s.arr [])[s.off + j]? with
    | some v => .ok v
    | none => .panic
  else .panic

/-- Go `M[i]` on a matrix: panics unless `i < len(M)`. -/
def rowAt (M : Matrix) (i : Nat) : Res Slice :=
  match M[i]? with
  | some s => .ok s
  | none => .panic

/-- Go `s[:hi]`: the upper bound is checked against the capacity. -/
def Slice.sliceTo (s : Slice) (hi : Nat) : Res Slice :=
  if hi ≤ s.cap then .ok { s with len := hi } else .panic

/-- Go `s[lo:]`: the lower bound is checked against the length. -/
def Slice.sliceFrom (s : Slice) (lo : Nat) : Res Slice :=
  if lo ≤ s.len then
    .ok { arr := s.arr, off := s.off + lo, len := s.len - lo, cap := s.cap - lo }
  else .panic

/-- Go `make([]int64, n)` followed by filling it with `vals`: a new backing
array, and a header of length and capacity `len(vals)`. -/
def alloc (h : Heap) (vals : List Int) : Slice × Heap :=
  ({ arr := h.length, off := 0, len := vals.length, cap := vals.length }, h ++ [vals])

/-- Overwrite the cells of an array from position `p` on with `vals`. -/
def writeAt (a : List Int) (p : Nat) (vals : List Int) : List Int :=
  a.take p ++ vals ++ a.drop (p + vals.length)

/-- Go `append(s, t...)`.  When the capacity of `s` suffices the elements of `t`
are written into the backing array of `s` right after its length; otherwise a
new array is allocated.  The capacity of a new array is the runtime's choice:
`grow oldCap needed`, never below `needed`. -/
def append (grow : Nat → Nat → Nat) (h : Heap) (s t : Slice) : Slice × Heap :=
  let vals := rowVal h t
  if s.len + t.len ≤ s.cap then
    ({ s with len := s.len + t.len },
      h.set s.arr (writeAt (h.getD s.arr []) (s.off + s.len) vals))
  else
    let c := max (s.len + t.len) (grow s.cap (s.len + t.len))
    ({ arr := h.length, off := 0, len := s.len + t.len, cap := c },
      h ++ [rowVal h s ++ vals ++ List.replicate (c - (s.len + t.len)) 0])

/-! ### The program -/

/-- The function `isPowerOfTwo` (main.go:22): `(num & (num - 1)) == 0` on a 64-bit
`int`. -/
def isPowerOfTwo (num : Int) : Bool :=
  and64 num (wrap64 (num - 1)) == 0

/-- The inner loop of `addMat`/`subMat` (main.go:31): the first `j` elements of
row `i` of the result. -/
def elemRow (op : Int → Int → Int) (h : Heap) (A B : Matrix) (i : Nat) :
    Nat → Res (List Int)
  | 0 => .ok []
  | j + 1 => do
    let xs ← elemRow op h A B i j
    let ra ← rowAt A i
    let a ← ra.index h j
    let rb ← rowAt B i
    let b ← rb.index h j
    pure (xs ++ [op a b])

/-- The outer loop of `addMat`/`subMat` (main.go:29): the first `i` rows of the
result, each in a newly made array. -/
def elemRows (op : Int → Int → Int) (h : Heap) (A B : Matrix) (n : Nat) :
    Nat → Res (Matrix × Heap)
  | 0 => .ok ([], h)
  | i + 1 => do
    let (C, h1) ← elemRows op h A B n i
    let vals ← elemRow op h1 A B i n
    let (s, h2) := alloc h1 vals
    pure (C ++ [s], h2)

/-- The function `addMat` (main.go:26). -/
def addMat (h : Heap) (A B : Matrix) : Res (Matrix × Heap) :=
  elemRows (fun a b => wrap64 (a + b)) h A B A.length A.length

/-- The function `subMat` (main.go:38). -/
def subMat (h : Heap) (A B : Matrix) : Res (Matrix × Heap) :=
  elemRows (fun a b => wrap64 (a - b)) h A B A.length A.length

/-- The loop of `splitMat` (main.go:56): the first `i` rows of the four
quadrants. -/
def splitRows (A : Matrix) (size : Nat) :
    Nat → Res (Matrix × Matrix × Matrix × Matrix)
  | 0 => .ok ([], [], [], [])
  | i + 1 => do
    let (A11, A12, A21, A22) ← splitRows A size i
    let r ← rowAt A i
    let a11 ← r.sliceTo size
    let r ← rowAt A i
    let a12 ← r.sliceFrom size
    let r ← rowAt A (i + size)
    let a21 ← r.sliceTo size
    let r ← rowAt A (i + size)
    let a22 ← r.sliceFrom size
    pure (A11 ++ [a11], A12 ++ [a12], A21 ++ [a21], A22 ++ [a22])

/-- The function `splitMat` (main.go:50). -/
def splitMat (A : Matrix) (size : Nat) : Res (Matrix × Matrix × Matrix × Matrix) :=
  splitRows A size size

/-- The loop of `combineMat` (main.go:70): after `i` iterations, the rows
`C[0..i)` and `C[n..n+i)` and the heap. -/
def combineRows (grow : Nat → Nat → Nat) (h : Heap) (A11 A12 A21 A22 : Matrix) :
    Nat → Res (Matrix × Matrix × Heap)
  | 0 => .ok ([], [], h)
  | i + 1 => do
    let (top, bot, h1) ← combineRows grow h A11 A12 A21 A22 i
    let a ← rowAt A11 i
    let b ← rowAt A12 i
    let (r1, h2) := append grow h1 a b
    let c ← rowAt A21 i
    let d ← rowAt A22 i
    let (r2, h3) := append grow h2 c d
    pure (top ++ [r1], bot ++ [r2], h3)

/-- The function `combineMat` (main.go:65). -/
def combineMat (grow : Nat → Nat → Nat) (h : Heap) (A11 A12 A21 A22 : Matrix) :
    Res (Matrix × Heap) := do
  let (top, bot, h1) ← combineRows grow h A11 A12 A21 A22 A11.length
  pure (top ++ bot, h1)

/-- The function `multiplyStrassen` (main.go:77).  The seven goroutines share no
storage that any of them writes, so they are run one after the other, in the
order in which their channels are read.  `fuel` bounds the depth of the
recursion. -/
def multiplyStrassen (grow : Nat → Nat → Nat) :
    Nat → Heap → Matrix → Matrix → Res (Matrix × Heap)
  | 0, _, _, _ => .outOfFuel
  | fuel + 1, h, A, B =>
    if A.length = 1 then do
      let ra ← rowAt A 0
      let a ← ra.index h 0
      let rb ← rowAt B 0
      let b ← rb.index h 0
      let (s, h1) := alloc h [wrap64 (a * b)]
      pure ([s], h1)
    else do
      let newSize := A.length / 2
      let (A11, A12, A21, A22) ← splitMat A newSize
      let (B11, B12, B21, B22) ← splitMat B newSize
      let (S1, h) ← addMat h A11 A22
      let (T1, h) ← addMat h B11 B22
      let (M1, h) ← multiplyStrassen grow fuel h S1 T1
      let (S2, h) ← addMat h A21 A22
      let (M2, h) ← multiplyStrassen grow fuel h S2 B11
      let (T3, h) ← subMat h B12 B22
      let (M3, h) ← multiplyStrassen grow fuel h A11 T3
      let (T4, h) ← subMat h B21 B11
      let (M4, h) ← multiplyStrassen grow fuel h A22 T4
      let (S5, h) ← addMat h A11 A12
      let (M5, h) ← multiplyStrassen grow fuel h S5 B22
      let (S6, h) ← subMat h A21 A11
      let (T6, h) ← addMat h B11 B12
      let (M6, h) ← multiplyStrassen grow fuel h S6 T6
      let (S7, h) ← subMat h A12 A22
      let (T7, h) ← addMat h B21 B22
      let (M7, h) ← multiplyStrassen grow fuel h S7 T7
      let (X1, h) ← addMat h M1 M4
      let (X2, h) ← subMat h X1 M5
      let (C11, h) ← addMat h X2 M7
      let (C12, h) ← addMat h M3 M5
      let (C21, h) ← addMat h M2 M4
      let (Y1, h) ← addMat h M1 M3
      let (Y2, h) ← subMat h Y1 M2
      let (C22, h) ← addMat h Y2 M6
      combineMat grow h C11 C12 C21 C22

/-! ### Well-formed states and what they show -/

/-- The values of the result of a run, if it produced one. -/
def resultVal : Res (Matrix × Heap) → Option (List (List Int))
  | .ok (C, h) => some (matVal h C)
  | _ => none

/-- A slice header fits the heap: its length is within its capacity and its
capacity within its backing array. -/
def SliceOK (h : Heap) (s : Slice) : Prop :=
  s.len ≤ s.cap ∧ s.off + s.cap ≤ (h.getD s.arr []).length

/-- A matrix is square of order `n` in heap `h`: it has `n` rows, each a valid
slice of `n` elements. -/
def IsSquare (h : Heap) (M : Matrix) (n : Nat) : Prop :=
  M.length = n ∧ ∀ s ∈ M, SliceOK h s ∧ s.len = n

/-- No row of the matrix has capacity beyond its length. -/
def Tight (M : Matrix) : Prop :=
  ∀ s ∈ M, s.cap = s.len

/-- The nil slice. -/
def nilSlice : Slice := ⟨0, 0, 0, 0⟩

/-- Element `(i, j)` of a matrix as the heap shows it (`0` outside). -/
def ent (h : Heap) (M : Matrix) (i j : Nat) : Int :=
  (rowVal h (M.getD i nilSlice)).getD j 0

/-- The header `s[:m]`. -/
def leftHalf (s : Slice) (m : Nat) : Slice :=
  { s with len := m }

/-- The header `s[m:]`. -/
def rightHalf (s : Slice) (m : Nat) : Slice :=
  { arr := s.arr, off := s.off + m, len := s.len - m, cap := s.cap - m }

/-! ### Products of entry functions -/

/-- The naive inner product: the sum of the first `n` products `f l * g l`, every
product and every partial sum wrapped to 64 bits. -/
def dot64 (f g : Nat → Int) : Nat → Int
  | 0 => 0
  | k + 1 => wrap64 (dot64 f g k + wrap64 (f k * g k))

/-- Entry-wise wrapped sum of two entry functions. -/
def addF (f g : Nat → Nat → Int) : Nat → Nat → Int :=
  fun i j => wrap64 (f i j + g i j)

/-- Entry-wise wrapped difference of two entry functions. -/
def subF (f g : Nat → Nat → Int) : Nat → Nat → Int :=
  fun i j => wrap64 (f i j - g i j)

/-- Wrapped product of order `m` of two entry functions. -/
def mulF (m : Nat) (f g : Nat → Nat → Int) : Nat → Nat → Int :=
  fun i j => wrap64 (∑ l in Finset.range m, f i l * g l j)

/-- The quadrant of an entry function at row offset `a` and column offset `b`. -/
def quadF (a b : Nat) (f : Nat → Nat → Int) : Nat → Nat → Int :=
  fun i j => f (i + a) (j + b)

/-- The seven products and four result quadrants of one Strassen step, on entry
functions. -/
def strassenF (m : Nat) (f g : Nat → Nat → Int) :
    (Nat → Nat → Int) × (Nat → Nat → Int) × (Nat → Nat → Int) × (Nat → Nat → Int) :=
  let a11 := quadF 0 0 f; let a12 := quadF 0 m f; let a21 := quadF m 0 f; let a22 := quadF m m f
  let b11 := quadF 0 0 g; let b12 := quadF 0 m g; let b21 := quadF m 0 g; let b22 := quadF m m g
  let m1 := mulF m (addF a11 a22) (addF b11 b22)
  let m2 := mulF m (addF a21 a22) b11
  let m3 := mulF m a11 (subF b12 b22)
  let m4 := mulF m a22 (subF b21 b11)
  let m5 := mulF m (addF a11 a12) b22
  let m6 := mulF m (subF a21 a11) (addF b11 b12)
  let m7 := mulF m (subF a12 a22) (addF b21 b22)
  (addF (subF (addF m1 m4) m5) m7, addF m3 m5, addF m2 m4, addF (subF (addF m1 m3) m2) m6)

/-- A matrix is square of order `n` in heap `h` and its entries are those of the
entry function `f`. -/
def Shows (h : Heap) (M : Matrix) (n : Nat) (f : Nat → Nat → Int) : Prop :=
  IsSquare h M n ∧ ∀ i j, i < n → j < n → ent h M i j = f i j

/-! ### The request handler -/

/-- The Go type `JSONMatrix` (main.go:12): a declared order and the data. -/
structure JSONMatrix where
  Order : Int
  Matrix : Matrix

/-- A request as `multiplicationHandler` sees it: the HTTP method, the outcome of
decoding the body into `[]JSONMatrix` (`none` when decoding fails) and the heap
holding the decoded rows. -/
structure Request where
  method : String
  body : Option (List JSONMatrix)
  heap : Heap

/-- What the handler writes: an `http.Error` with its message and status, or the
encoded `Result` holding the product. -/
inductive Response where
  | httpError (msg : String) (status : Nat)
  | result (data : List (List Int))
  deriving DecidableEq, Repr

/-- The function `multiplicationHandler` (main.go:119), from the decoded request on. -/
def multiplicationHandler (grow : Nat → Nat → Nat) (fuel : Nat) (r : Request) :
    Res Response :=
  if r.method ≠ "POST" then
    .ok (.httpError "Invalid request method" 405)
  else
    match r.body with
    | none => .ok (.httpError "Invalid request body" 400)
    | some [matrixA, matrixB] =>
      if matrixA.Order ≠ matrixB.Order || !isPowerOfTwo matrixA.Order then
        .ok (.httpError "Matrix dimensions do not match for multiplication" 400)
      else do
        let (result, h) ← multiplyStrassen grow fuel r.heap matrixA.Matrix matrixB.Matrix
        pure (.result (matVal h result))
    | some _ => .ok (.httpError "Two matrices required" 400)

/-! ### Decidability of the predicates -/

instance (h : Heap) (s : Slice) : Decidable (SliceOK h s) := by
  unfold SliceOK
  infer_instance

instance (h : Heap) (M : Matrix) (n : Nat) : Decidable (IsSquare h M n) := by
  unfold IsSquare
  infer_instance

instance (M : Matrix) : Decidable (Tight M) := by
  unfold Tight
  infer_instance

instance (x : Int) : Decidable (InInt64 x) := by
  unfold InInt64
  infer_instance

/-- The matrix shows the identity of order `n`: ones on the diagonal, zeros
elsewhere. -/
def IsIdentity (h : Heap) (I : Matrix) (n : Nat) : Prop :=
  ∀ i, i < n → ∀ j, j < n → ent h I i j = if i = j then 1 else 0

instance (h : Heap) (I : Matrix) (n : Nat) : Decidable (IsIdentity h I n) := by
  unfold IsIdentity
  infer_instance

/-- Every entry of the matrix of order `n` is an `int64`. -/
def EntriesInt64 (h : Heap) (A : Matrix) (n : Nat) : Prop :=
  ∀ i, i < n → ∀ j, j < n → InInt64 (ent h A i j)

instance (h : Heap) (A : Matrix) (n : Nat) : Decidable (EntriesInt64 h A n) := by
  unfold EntriesInt64
  infer_instance

/-! ### Concrete states -/

/-- A growth policy for `append`: exactly the needed capacity. -/
def growExact : Nat → Nat → Nat :=
  fun _ needed => needed

/-- A heap holding the rows of `[[1,2],[3,4]]`, `[[5,6],[7,8]]` and of the
identity of order two. -/
def exHeap : Heap := [[1, 2], [3, 4], [5, 6], [7, 8], [1, 0], [0, 1]]

/-- The matrix `[[1,2],[3,4]]` in `exHeap`. -/
def exA : Matrix := [⟨0, 0, 2, 2⟩, ⟨1, 0, 2, 2⟩]

/-- The matrix `[[5,6],[7,8]]` in `exHeap`. -/
def exB : Matrix := [⟨2, 0, 2, 2⟩, ⟨3, 0, 2, 2⟩]

/-- The identity of order two in `exHeap`. -/
def exI : Matrix := [⟨4, 0, 2, 2⟩, ⟨5, 0, 2, 2⟩]

/-- A heap holding the rows of `[[1,2],[3,4]]` and the one-element rows `[5]`
and `[6]`. -/
def cxHeap : Heap := [[1, 2], [3, 4], [5], [6]]

/-- The matrix `[[1,2],[3,4]]` in `cxHeap`. -/
def cxM : Matrix := [⟨0, 0, 2, 2⟩, ⟨1, 0, 2, 2⟩]

/-- The top-left quadrant of `cxM` as `splitMat` returns it: the row `M[0][:1]`,
of length one and capacity two. -/
def cxA11 : Matrix := [⟨0, 0, 1, 2⟩]

/-- The matrix `[[5]]` in `cxHeap`. -/
def cxP : Matrix := [⟨2, 0, 1, 1⟩]

/-- The matrix `[[6]]` in `cxHeap`. -/
def cxQ : Matrix := [⟨3, 0, 1, 1⟩]

/-- A request with two empty matrices of the given declared orders. -/
def orderRequest (a b : Int) : Request :=
  ⟨"POST", some [⟨a, []⟩, ⟨b, []⟩], []⟩

/-- A request declaring order two for both matrices, with data `[[7]]` and
`[[1,2],[3,4]]`. -/
def mismatchRequest : Request :=
  ⟨"POST", some [⟨2, [⟨0, 0, 1, 1⟩]⟩, ⟨2, [⟨1, 0, 2, 2⟩, ⟨2, 0, 2, 2⟩]⟩], [[7], [1, 2], [3, 4]]⟩

/-- A request declaring order two for `exA` and `exB`. -/
def exRequest : Request :=
  ⟨"POST", some [⟨2, exA⟩, ⟨2, exB⟩], exHeap⟩

/-! ### The call tree of the engine -/

/-- The tree of calls of a run of `multiplyStrassen`: a call that took the base
case, or a call on a first argument of length `n` that took the recursive branch,
with the trees of the calls it made. -/
inductive CallTree where
  | base : CallTree
  | fork (n : Nat) (subs : List CallTree) : CallTree

/-- The length of the first argument of the call at the root. -/
def CallTree.order : CallTree → Nat
  | .base => 1
  | .fork n _ => n

mutual
/-- The depth of a call tree: the greatest number of nested recursive calls. -/
def CallTree.depth : CallTree → Nat
  | .base => 0
  | .fork _ subs => 1 + CallTree.depthList subs
/-- The greatest depth among a list of call trees. -/
def CallTree.depthList : List CallTree → Nat
  | [] => 0
  | t :: ts => max t.depth (CallTree.depthList ts)
end

mutual
/-- The number of base-case calls in a call tree. -/
def CallTree.leaves : CallTree → Nat
  | .base => 1
  | .fork _ subs => CallTree.leavesList subs
/-- The number of base-case calls in a list of call trees. -/
def CallTree.leavesList : List CallTree → Nat
  | [] => 0
  | t :: ts => t.leaves + CallTree.leavesList ts
end

mutual
/-- Every call that took the recursive branch made exactly seven calls. -/
def CallTree.sevenfold : CallTree → Bool
  | .base => true
  | .fork _ subs => subs.length == 7 && CallTree.sevenfoldList subs
/-- Every tree of the list is sevenfold. -/
def CallTree.sevenfoldList : List CallTree → Bool
  | [] => true
  | t :: ts => t.sevenfold && CallTree.sevenfoldList ts
end

mutual
/-- Every recursive call is on a first argument of exactly half the length of its
caller's. -/
def CallTree.halving : CallTree → Bool
  | .base => true
  | .fork n subs => CallTree.halvingList n subs
/-- Every tree of the list is a call on half of `n` and is halving. -/
def CallTree.halvingList (n : Nat) : List CallTree → Bool
  | [] => true
  | t :: ts => (2 * t.order == n) && t.halving && CallTree.halvingList n ts
end

/-- The call tree of a run on order `2 ^ k`. -/
def fullTree : Nat → CallTree
  | 0 => .base
  | k + 1 => .fork (2 ^ (k + 1)) (List.replicate 7 (fullTree k))

/-- Apply a function to the value of an outcome. -/
def Res.map {α β : Type} (f : α → β) : Res α → Res β
  | .ok a => .ok (f a)
  | .panic => .panic
  | .outOfFuel => .outOfFuel

/-- The function `multiplyStrassen` (main.go:77) once more, returning next to its
result the tree of the calls made. -/
def multiplyStrassenTrace (grow : Nat → Nat → Nat) :
    Nat → Heap → Matrix → Matrix → Res ((Matrix × Heap) × CallTree)
  | 0, _, _, _ => .outOfFuel
  | fuel + 1, h, A, B =>
    if A.length = 1 then do
      let ra ← rowAt A 0
      let a ← ra.index h 0
      let rb ← rowAt B 0
      let b ← rb.index h 0
      let (s, h1) := alloc h [wrap64 (a * b)]
      pure (([s], h1), .base)
    else do
      let newSize := A.length / 2
      let (A11, A12, A21, A22) ← splitMat A newSize
      let (B11, B12, B21, B22) ← splitMat B newSize
      let (S1, h) ← addMat h A11 A22
      let (T1, h) ← addMat h B11 B22
      let ((M1, h), t1) ← multiplyStrassenTrace grow fuel h S1 T1
      let (S2, h) ← addMat h A21 A22
      let ((M2, h), t2) ← multiplyStrassenTrace grow fuel h S2 B11
      let (T3, h) ← subMat h B12 B22
      let ((M3, h), t3) ← multiplyStrassenTrace grow fuel h A11 T3
      let (T4, h) ← subMat h B21 B11
      let ((M4, h), t4) ← multiplyStrassenTrace grow fuel h A22 T4
      let (S5, h) ← addMat h A11 A12
      let ((M5, h), t5) ← multiplyStrassenTrace grow fuel h S5 B22
      let (S6, h) ← subMat h A21 A11
      let (T6, h) ← addMat h B11 B12
      let ((M6, h), t6) ← multiplyStrassenTrace grow fuel h S6 T6
      let (S7, h) ← subMat h A12 A22
      let (T7, h) ← addMat h B21 B22
      let ((M7, h), t7) ← multiplyStrassenTrace grow fuel h S7 T7
      let (X1, h) ← addMat h M1 M4
      let (X2, h) ← subMat h X1 M5
      let (C11, h) ← addMat h X2 M7
      let (C12, h) ← addMat h M3 M5
      let (C21, h) ← addMat h M2 M4
      let (Y1, h) ← addMat h M1 M3
      let (Y2, h) ← subMat h Y1 M2
      let (C22, h) ← addMat h Y2 M6
      let (C, h) ← combineMat grow h C11 C12 C21 C22
      pure ((C, h), .fork A.length [t1, t2, t3, t4, t5, t6, t7])

mutual
/-- Every branch of the call tree ends in a call that took the base case. -/
def CallTree.endsAtBase : CallTree → Bool
  | .base => true
  | .fork _ subs => !subs.isEmpty && CallTree.endsAtBaseList subs
/-- Every tree of the list ends at the base case. -/
def CallTree.endsAtBaseList : List CallTree → Bool
  | [] => true
  | t :: ts => t.endsAtBase && CallTree.endsAtBaseList ts
end

/-! ### The combination step, and products to compare with -/

/-- The combination step of `multiplyStrassen` (main.go:111-114): the four result
quadrants from the seven products. -/
def strassenQuadrants (h : Heap) (M1 M2 M3 M4 M5 M6 M7 : Matrix) :
    Res ((Matrix × Matrix × Matrix × Matrix) × Heap) := do
  let (X1, h) ← addMat h M1 M4
  let (X2, h) ← subMat h X1 M5
  let (C11, h) ← addMat h X2 M7
  let (C12, h) ← addMat h M3 M5
  let (C21, h) ← addMat h M2 M4
  let (Y1, h) ← addMat h M1 M3
  let (Y2, h) ← subMat h Y1 M2
  let (C22, h) ← addMat h Y2 M6
  pure ((C11, C12, C21, C22), h)

/-- The matrix `M` of order `m` is the true product of the entry functions `f` and
`g`: its entry `(i, j)` is the wrapped sum over `l` of the wrapped products
`f i l * g l j`. -/
def IsProduct (h : Heap) (M : Matrix) (m : Nat) (f g : Nat → Nat → Int) : Prop :=
  IsSquare h M m ∧
    ∀ i, i < m → ∀ j, j < m → ent h M i j = dot64 (fun l => f i l) (fun l => g l j) m

instance (h : Heap) (M : Matrix) (m : Nat) (f g : Nat → Nat → Int) :
    Decidable (IsProduct h M m f g) := by
  unfold IsProduct
  infer_instance

/-- Entry `(i, j)` of `a * b + c * d` by the naive formula: the wrapped sum of the
two wrapped inner products of order `m`. -/
def naiveBlock (m : Nat) (a b c d : Nat → Nat → Int) (i j : Nat) : Int :=
  wrap64 (dot64 (fun l => a i l) (fun l => b l j) m + dot64 (fun l => c i l) (fun l => d l j) m)

/-- A heap holding the entries `1 .. 8` of the quadrants of `[[1,2],[3,4]]` and
`[[5,6],[7,8]]` and the seven products `65, 35, -2, 8, 24, 22, -30` of one
Strassen step on them, each in an array of its own. -/
def stepHeap : Heap :=
  [[1], [2], [3], [4], [5], [6], [7], [8], [65], [35], [-2], [8], [24], [22], [-30]]

/-- The one-by-one matrix whose row is array `a` of `stepHeap`. -/
def stepMat (a : Nat) : Matrix := [⟨a, 0, 1, 1⟩]

/-- The top-right quadrant of `cxM` as `splitMat` returns it: the row `M[0][1:]`. -/
def cxA12 : Matrix := [⟨0, 1, 1, 1⟩]

/-- The bottom-left quadrant of `cxM` as `splitMat` returns it: the row
`M[1][:1]`. -/
def cxA21 : Matrix := [⟨1, 0, 1, 2⟩]

/-- The bottom-right quadrant of `cxM` as `splitMat` returns it: the row
`M[1][1:]`. -/
def cxA22 : Matrix := [⟨1, 1, 1, 1⟩]

/-! ### Exact products, and more concrete states -/

/-- The exact inner product: the sum of the first `n` products `f l * g l` in
unbounded integers. -/
def exactDot (f g : Nat → Int) : Nat → Int
  | 0 => 0
  | k + 1 => exactDot f g k + f k * g k

/-- Every entry of the exact product of two matrices of order `n` is an
`int64`. -/
def ExactInRange (h : Heap) (A B : Matrix) (n : Nat) : Prop :=
  ∀ i, i < n → ∀ j, j < n →
    InInt64 (exactDot (fun l => ent h A i l) (fun l => ent h B l j) n)

instance (h : Heap) (A B : Matrix) (n : Nat) : Decidable (ExactInRange h A B n) := by
  unfold ExactInRange
  infer_instance

/-- A heap holding the rows of `[[2^62, 0], [0, 2^62]]` and of the identity of
order two. -/
def bigHeap : Heap :=
  [[4611686018427387904, 0], [0, 4611686018427387904], [1, 0], [0, 1]]

/-- The matrix `[[2^62, 0], [0, 2^62]]` in `bigHeap`. -/
def bigA : Matrix := [⟨0, 0, 2, 2⟩, ⟨1, 0, 2, 2⟩]

/-- The identity of order two in `bigHeap`. -/
def bigI : Matrix := [⟨2, 0, 2, 2⟩, ⟨3, 0, 2, 2⟩]

/-- A heap holding the one-element rows `[6]` and `[7]`. -/
def unitHeap : Heap := [[6], [7]]

/-- The matrix `[[6]]` in `unitHeap`. -/
def unitA : Matrix := [⟨0, 0, 1, 1⟩]

/-- The matrix `[[7]]` in `unitHeap`. -/
def unitB : Matrix := [⟨1, 0, 1, 1⟩]

/-- The top-left quadrant of `exA` as `splitMat` returns it. -/
def exA11 : Matrix := [⟨0, 0, 1, 2⟩]

/-- The bottom-left quadrant of `exA` as `splitMat` returns it. -/
def exA21 : Matrix := [⟨1, 0, 1, 2⟩]

/-- The top-right quadrant of `exB` as `splitMat` returns it. -/
def exB12 : Matrix := [⟨2, 1, 1, 1⟩]

/-- The bottom-right quadrant of `exB` as `splitMat` returns it. -/
def exB22 : Matrix := [⟨3, 1, 1, 1⟩]

/-! ## Theorems -/

/-! ### Outcomes -/

@[simp] theorem Res.ok_bind {α β : Type} (a : α) (f : α → Res β) :
    (Res.ok a >>= f) = f a := rfl

@[simp] theorem Res.panic_bind {α β : Type} (f : α → Res β) :
    ((Res.panic : Res α) >>= f) = Res.panic := rfl

@[simp] theorem Res.outOfFuel_bind {α β : Type} (f : α → Res β) :
    ((Res.outOfFuel : Res α) >>= f) = Res.outOfFuel := rfl

theorem Res.bind_of_eq_ok {α β : Type} {x : Res α} {a : α} (hx : x = Res.ok a)
    (f : α → Res β) : (x >>= f) = f a := by
  rw [hx]
  rfl

@[simp] theorem Res.pure_eq {α : Type} (a : α) : (pure a : Res α) = Res.ok a := rfl

/-! ### Slices, and heaps that only grow -/

theorem rowVal_length {h : Heap} {s : Slice} (hs : SliceOK h s) :
    (rowVal h s).length = s.len := by
  unfold rowVal
  obtain ⟨h1, h2⟩ := hs
  simp only [List.length_take, List.length_drop]
  omega

theorem rowVal_getElem? {h : Heap} {s : Slice} {j : Nat} (hj : j < s.len) :
    (rowVal h s)[j]? = (h.getD s.arr [])[s.off + j]? := by
  unfold rowVal
  rw [List.getElem?_take_of_lt hj, List.getElem?_drop]

theorem index_ok {h : Heap} {s : Slice} {j : Nat} (hs : SliceOK h s) (hj : j < s.len) :
    s.index h j = .ok ((rowVal h s).getD j 0) := by
  have hl := rowVal_length hs
  have hlt : j < (rowVal h s).length := by omega
  have h1 := rowVal_getElem? (h := h) hj
  rw [List.getElem?_eq_getElem hlt] at h1
  unfold Slice.index
  rw [if_pos hj, ← h1]
  simp [List.getD_eq_getElem?_getD, List.getElem?_eq_getElem hlt]

theorem rowAt_ok {M : Matrix} {i : Nat} (hi : i < M.length) :
    rowAt M i = .ok (M.getD i nilSlice) := by
  unfold rowAt
  simp [List.getD_eq_getElem?_getD, List.getElem?_eq_getElem hi]

theorem getD_mem {M : Matrix} {i : Nat} (hi : i < M.length) : M.getD i nilSlice ∈ M := by
  simp [List.getD_eq_getElem?_getD, List.getElem?_eq_getElem hi]

theorem heap_getD_ext {h h' : Heap} (hp : h <+: h') {a : Nat} (ha : a < h.length) :
    h'.getD a [] = h.getD a [] := by
  obtain ⟨t, rfl⟩ := hp
  simp [List.getD_eq_getElem?_getD, List.getElem?_append_left ha]

theorem heap_getD_ge {h : Heap} {a : Nat} (ha : h.length ≤ a) : h.getD a [] = [] := by
  simp [List.getD_eq_getElem?_getD, List.getElem?_eq_none ha]

theorem SliceOK_ext {h h' : Heap} (hp : h <+: h') {s : Slice} (hs : SliceOK h s) :
    SliceOK h' s := by
  by_cases ha : s.arr < h.length
  · unfold SliceOK
    rw [heap_getD_ext hp ha]
    exact hs
  · have h0 := heap_getD_ge (Nat.le_of_not_lt ha)
    obtain ⟨h1, h2⟩ := hs
    rw [h0] at h2
    simp only [List.length_nil] at h2
    exact ⟨h1, by omega⟩

theorem rowVal_ext {h h' : Heap} (hp : h <+: h') {s : Slice} (hs : SliceOK h s) :
    rowVal h' s = rowVal h s := by
  by_cases ha : s.arr < h.length
  · unfold rowVal
    rw [heap_getD_ext hp ha]
  · have h0 := heap_getD_ge (Nat.le_of_not_lt ha)
    obtain ⟨h1, h2⟩ := hs
    rw [h0] at h2
    simp only [List.length_nil] at h2
    have hl : s.len = 0 := by omega
    unfold rowVal
    simp [hl]

theorem IsSquare_ext {h h' : Heap} (hp : h <+: h') {M : Matrix} {n : Nat}
    (hM : IsSquare h M n) : IsSquare h' M n :=
  ⟨hM.1, fun s hs => ⟨SliceOK_ext hp (hM.2 s hs).1, (hM.2 s hs).2⟩⟩

theorem SliceOK_nil (h : Heap) : SliceOK h nilSlice := by
  simp [SliceOK, nilSlice]

theorem ent_ext {h h' : Heap} (hp : h <+: h') {M : Matrix} {n : Nat}
    (hM : IsSquare h M n) (i j : Nat) : ent h' M i j = ent h M i j := by
  unfold ent
  by_cases hi : i < M.length
  · rw [rowVal_ext hp (hM.2 _ (getD_mem hi)).1]
  · have : M.getD i nilSlice = nilSlice := by
      simp [List.getD_eq_getElem?_getD, List.getElem?_eq_none (Nat.le_of_not_lt hi)]
    rw [this, rowVal_ext hp (SliceOK_nil h)]

/-! ### Element-wise addition and subtraction -/

theorem alloc_spec (h : Heap) (vals : List Int) :
    h <+: (alloc h vals).2 ∧ SliceOK (alloc h vals).2 (alloc h vals).1 ∧
      (alloc h vals).1.len = vals.length ∧ (alloc h vals).1.cap = vals.length ∧
      rowVal (alloc h vals).2 (alloc h vals).1 = vals := by
  refine ⟨⟨[vals], rfl⟩, ?_, rfl, rfl, ?_⟩
  · simp [alloc, SliceOK, List.getD_eq_getElem?_getD]
  · simp [alloc, rowVal, List.getD_eq_getElem?_getD]

theorem elemRow_spec (op : Int → Int → Int) {h : Heap} {A B : Matrix} {i : Nat}
    (hiA : i < A.length) (hiB : i < B.length)
    (hA : SliceOK h (A.getD i nilSlice)) (hB : SliceOK h (B.getD i nilSlice)) :
    ∀ j, j ≤ (A.getD i nilSlice).len → j ≤ (B.getD i nilSlice).len →
      elemRow op h A B i j
        = .ok ((List.range j).map (fun k => op (ent h A i k) (ent h B i k))) := by
  intro j
  induction j with
  | zero => intro _ _; rfl
  | succ j ih =>
    intro h1 h2
    have e := ih (by omega) (by omega)
    simp only [elemRow, e, Res.ok_bind, rowAt_ok hiA, rowAt_ok hiB,
      index_ok hA (show j < _ by omega), index_ok hB (show j < _ by omega), Res.pure_eq,
      List.range_succ, List.map_append, List.map_cons, List.map_nil]
    rfl

theorem elemRows_spec (op : Int → Int → Int) {h : Heap} {A B : Matrix} {n : Nat}
    (hA : IsSquare h A n) (hB : IsSquare h B n) :
    ∀ i, i ≤ n → ∃ C h', elemRows op h A B n i = .ok (C, h') ∧ h <+: h' ∧
      C.length = i ∧ (∀ s ∈ C, SliceOK h' s ∧ s.len = n ∧ s.cap = n) ∧
      ∀ r, r < i → rowVal h' (C.getD r nilSlice)
        = (List.range n).map (fun k => op (ent h A r k) (ent h B r k)) := by
  intro i
  induction i with
  | zero =>
    intro _
    exact ⟨[], h, rfl, List.prefix_refl h, rfl, by simp, by simp⟩
  | succ i ih =>
    intro hi
    obtain ⟨C, h1, e, hp, hlen, hrows, hvals⟩ := ih (by omega)
    have hA1 := IsSquare_ext hp hA
    have hB1 := IsSquare_ext hp hB
    have hiA : i < A.length := by rw [hA.1]; omega
    have hiB : i < B.length := by rw [hB.1]; omega
    have hrA := hA1.2 _ (getD_mem hiA)
    have hrB := hB1.2 _ (getD_mem hiB)
    have er := elemRow_spec op hiA hiB hrA.1 hrB.1 n (by omega) (by omega)
    have hval : (List.range n).map (fun k => op (ent h1 A i k) (ent h1 B i k))
        = (List.range n).map (fun k => op (ent h A i k) (ent h B i k)) := by
      apply List.map_congr_left
      intro k _
      rw [ent_ext hp hA, ent_ext hp hB]
    rw [hval] at er
    have ha := alloc_spec h1 ((List.range n).map (fun k => op (ent h A i k) (ent h B i k)))
    have es : elemRows op h A B n (i + 1)
        = .ok (C ++ [(alloc h1 ((List.range n).map
            (fun k => op (ent h A i k) (ent h B i k)))).1],
          (alloc h1 ((List.range n).map (fun k => op (ent h A i k) (ent h B i k)))).2) := by
      simp only [elemRows, e, Res.ok_bind, er, Res.pure_eq]
    generalize alloc h1 ((List.range n).map (fun k => op (ent h A i k) (ent h B i k))) = p
      at ha es
    obtain ⟨s, h2⟩ := p
    obtain ⟨ap, aok, alen, acap, aval⟩ := ha
    simp only [List.length_map, List.length_range] at alen acap
    refine ⟨C ++ [s], h2, es, hp.trans ap, by simp [hlen], ?_, ?_⟩
    · intro t ht
      rcases List.mem_append.1 ht with ht | ht
      · exact ⟨SliceOK_ext ap (hrows t ht).1, (hrows t ht).2⟩
      · rw [List.mem_singleton] at ht
        subst ht
        exact ⟨aok, alen, acap⟩
    · intro r hr
      by_cases hri : r < i
      · have hrC : r < C.length := by omega
        have hg : (C ++ [s]).getD r nilSlice = C.getD r nilSlice := by
          simp [List.getD_eq_getElem?_getD, List.getElem?_append_left hrC]
        rw [hg, rowVal_ext ap (hrows _ (getD_mem hrC)).1]
        exact hvals r hri
      · have hri' : r = i := by omega
        subst hri'
        have hg : (C ++ [s]).getD r nilSlice = s := by
          simp [List.getD_eq_getElem?_getD, ← hlen]
        rw [hg]
        exact aval

theorem elem_spec (op : Int → Int → Int) {h : Heap} {A B : Matrix} {n : Nat}
    (hA : IsSquare h A n) (hB : IsSquare h B n) :
    ∃ C h', elemRows op h A B A.length A.length = .ok (C, h') ∧ h <+: h' ∧
      IsSquare h' C n ∧ Tight C ∧
      ∀ i j, i < n → j < n → ent h' C i j = op (ent h A i j) (ent h B i j) := by
  obtain ⟨C, h', e, hp, hlen, hrows, hvals⟩ := elemRows_spec op hA hB n (le_refl n)
  refine ⟨C, h', by rw [hA.1]; exact e, hp, ⟨hlen, fun s hs => ⟨(hrows s hs).1, (hrows s hs).2.1⟩⟩,
    fun s hs => by rw [(hrows s hs).2.1, (hrows s hs).2.2], ?_⟩
  intro i j hi hj
  unfold ent at *
  rw [hvals i hi]
  simp [List.getD_eq_getElem?_getD, List.getElem?_range hj, hj, ent]

/-! ### Splitting into quadrants -/

theorem splitRows_spec {h : Heap} {A : Matrix} {m : Nat} (hA : IsSquare h A (2 * m)) :
    ∀ i, i ≤ m → splitRows A m i = .ok
      ((List.range i).map (fun r => leftHalf (A.getD r nilSlice) m),
       (List.range i).map (fun r => rightHalf (A.getD r nilSlice) m),
       (List.range i).map (fun r => leftHalf (A.getD (r + m) nilSlice) m),
       (List.range i).map (fun r => rightHalf (A.getD (r + m) nilSlice) m)) := by
  intro i
  induction i with
  | zero => intro _; rfl
  | succ i ih =>
    intro hi
    have e := ih (by omega)
    have h1 : i < A.length := by rw [hA.1]; omega
    have h2 : i + m < A.length := by rw [hA.1]; omega
    have r1 := hA.2 _ (getD_mem h1)
    have r2 := hA.2 _ (getD_mem h2)
    have c1 : m ≤ (A.getD i nilSlice).cap := by have := r1.1.1; omega
    have c2 : m ≤ (A.getD (i + m) nilSlice).cap := by have := r2.1.1; omega
    have l1 : m ≤ (A.getD i nilSlice).len := by omega
    have l2 : m ≤ (A.getD (i + m) nilSlice).len := by omega
    simp only [splitRows, e, Res.ok_bind, rowAt_ok h1, rowAt_ok h2, Slice.sliceTo,
      Slice.sliceFrom, if_pos c1, if_pos c2, if_pos l1, if_pos l2, Res.pure_eq,
      List.range_succ, List.map_append, List.map_cons, List.map_nil]
    rfl

theorem rowVal_leftHalf (h : Heap) (s : Slice) {m : Nat} (hm : m ≤ s.len) :
    rowVal h (leftHalf s m) = (rowVal h s).take m := by
  simp [rowVal, leftHalf, List.take_take, Nat.min_eq_left hm]

theorem rowVal_rightHalf (h : Heap) (s : Slice) (m : Nat) :
    rowVal h (rightHalf s m) = (rowVal h s).drop m := by
  simp [rowVal, rightHalf, List.drop_take, List.drop_drop, Nat.add_comm]

theorem SliceOK_leftHalf {h : Heap} {s : Slice} (hs : SliceOK h s) {m : Nat}
    (hm : m ≤ s.len) : SliceOK h (leftHalf s m) :=
  ⟨by have := hs.1; show m ≤ s.cap; omega, hs.2⟩

theorem SliceOK_rightHalf {h : Heap} {s : Slice} (hs : SliceOK h s) {m : Nat}
    (hm : m ≤ s.len) : SliceOK h (rightHalf s m) := by
  obtain ⟨h1, h2⟩ := hs
  refine ⟨?_, ?_⟩
  · show s.len - m ≤ s.cap - m
    omega
  · show s.off + m + (s.cap - m) ≤ (h.getD s.arr []).length
    omega

theorem getD_map_range {f : Nat → Slice} {n i : Nat} (hi : i < n) :
    ((List.range n).map f).getD i nilSlice = f i := by
  simp [List.getD_eq_getElem?_getD, List.getElem?_range hi, hi]

theorem getD_take (l : List Int) {m j : Nat} (hj : j < m) :
    (l.take m).getD j 0 = l.getD j 0 := by
  simp [List.getD_eq_getElem?_getD, List.getElem?_take_of_lt hj]

theorem getD_drop (l : List Int) (m j : Nat) :
    (l.drop m).getD j 0 = l.getD (j + m) 0 := by
  simp [List.getD_eq_getElem?_getD, List.getElem?_drop, Nat.add_comm]

/-- What `splitMat` returns on a square matrix of order `2 * m`: four square
matrices of order `m` showing the four quadrants. -/
theorem split_spec {h : Heap} {A : Matrix} {m : Nat} (hA : IsSquare h A (2 * m)) :
    ∃ A11 A12 A21 A22, splitMat A m = .ok (A11, A12, A21, A22) ∧
      IsSquare h A11 m ∧ IsSquare h A12 m ∧ IsSquare h A21 m ∧ IsSquare h A22 m ∧
      ∀ i j, i < m → j < m →
        ent h A11 i j = ent h A i j ∧ ent h A12 i j = ent h A i (j + m) ∧
        ent h A21 i j = ent h A (i + m) j ∧ ent h A22 i j = ent h A (i + m) (j + m) := by
  refine ⟨_, _, _, _, splitRows_spec hA m (le_refl m), ?_, ?_, ?_, ?_, ?_⟩
  · refine ⟨by simp, ?_⟩
    intro s hs
    obtain ⟨r, hr, rfl⟩ := List.mem_map.1 hs
    have hr' : r < A.length := by rw [hA.1]; have := List.mem_range.1 hr; omega
    have hrow := hA.2 _ (getD_mem hr')
    exact ⟨SliceOK_leftHalf hrow.1 (by omega), rfl⟩
  · refine ⟨by simp, ?_⟩
    intro s hs
    obtain ⟨r, hr, rfl⟩ := List.mem_map.1 hs
    have hr' : r < A.length := by rw [hA.1]; have := List.mem_range.1 hr; omega
    have hrow := hA.2 _ (getD_mem hr')
    exact ⟨SliceOK_rightHalf hrow.1 (by omega), by show _ - m = m; omega⟩
  · refine ⟨by simp, ?_⟩
    intro s hs
    obtain ⟨r, hr, rfl⟩ := List.mem_map.1 hs
    have hr' : r + m < A.length := by rw [hA.1]; have := List.mem_range.1 hr; omega
    have hrow := hA.2 _ (getD_mem hr')
    exact ⟨SliceOK_leftHalf hrow.1 (by omega), rfl⟩
  · refine ⟨by simp, ?_⟩
    intro s hs
    obtain ⟨r, hr, rfl⟩ := List.mem_map.1 hs
    have hr' : r + m < A.length := by rw [hA.1]; have := List.mem_range.1 hr; omega
    have hrow := hA.2 _ (getD_mem hr')
    exact ⟨SliceOK_rightHalf hrow.1 (by omega), by show _ - m = m; omega⟩
  · intro i j hi hj
    have h1 : i < A.length := by rw [hA.1]; omega
    have h2 : i + m < A.length := by rw [hA.1]; omega
    have r1 := hA.2 _ (getD_mem h1)
    have r2 := hA.2 _ (getD_mem h2)
    unfold ent
    simp only [getD_map_range hi]
    rw [rowVal_leftHalf h _ (show m ≤ _ by omega), rowVal_rightHalf,
      rowVal_leftHalf h _ (show m ≤ _ by omega), rowVal_rightHalf]
    exact ⟨getD_take _ hj, getD_drop _ _ _, getD_take _ hj, getD_drop _ _ _⟩

/-! ### Combining quadrants whose rows have no spare capacity -/

theorem append_fresh (grow : Nat → Nat → Nat) {h : Heap} {s t : Slice}
    (hs : SliceOK h s) (ht : SliceOK h t) (hc : ¬ s.len + t.len ≤ s.cap) :
    h <+: (append grow h s t).2 ∧ SliceOK (append grow h s t).2 (append grow h s t).1 ∧
      (append grow h s t).1.len = s.len + t.len ∧
      rowVal (append grow h s t).2 (append grow h s t).1 = rowVal h s ++ rowVal h t := by
  have ls := rowVal_length hs
  have lt := rowVal_length ht
  simp only [append, if_neg hc]
  refine ⟨⟨_, rfl⟩, ?_, trivial, ?_⟩
  · refine ⟨Nat.le_max_left _ _, ?_⟩
    simp only [List.getD_eq_getElem?_getD, List.getElem?_concat_length, Option.getD_some,
      List.length_append, List.length_replicate, ls, lt]
    have := Nat.le_max_left (s.len + t.len) (grow s.cap (s.len + t.len))
    omega
  · simp only [rowVal, List.getD_eq_getElem?_getD, List.getElem?_concat_length,
      Option.getD_some, List.drop_zero]
    rw [List.take_append_of_le_length (by simp [rowVal, ls, lt] at *; omega)]
    apply List.take_of_length_le
    have e1 : (List.take s.len (List.drop s.off (h[s.arr]?.getD []))).length = s.len := by
      simpa [rowVal, List.getD_eq_getElem?_getD] using ls
    have e2 : (List.take t.len (List.drop t.off (h[t.arr]?.getD []))).length = t.len := by
      simpa [rowVal, List.getD_eq_getElem?_getD] using lt
    rw [List.length_append, e1, e2]

theorem combineRows_spec (grow : Nat → Nat → Nat) {h : Heap} {A11 A12 A21 A22 : Matrix}
    {m : Nat} (h11 : IsSquare h A11 m) (h12 : IsSquare h A12 m) (h21 : IsSquare h A21 m)
    (h22 : IsSquare h A22 m) (t11 : Tight A11) (t21 : Tight A21) :
    ∀ i, i ≤ m → ∃ top bot h', combineRows grow h A11 A12 A21 A22 i = .ok (top, bot, h') ∧
      h <+: h' ∧ top.length = i ∧ bot.length = i ∧
      (∀ s ∈ top, SliceOK h' s ∧ s.len = 2 * m) ∧ (∀ s ∈ bot, SliceOK h' s ∧ s.len = 2 * m) ∧
      ∀ r, r < i →
        rowVal h' (top.getD r nilSlice)
          = rowVal h (A11.getD r nilSlice) ++ rowVal h (A12.getD r nilSlice) ∧
        rowVal h' (bot.getD r nilSlice)
          = rowVal h (A21.getD r nilSlice) ++ rowVal h (A22.getD r nilSlice) := by
  intro i
  induction i with
  | zero =>
    intro _
    exact ⟨[], [], h, rfl, List.prefix_refl h, rfl, rfl, by simp, by simp, by simp⟩
  | succ i ih =>
    intro hi
    obtain ⟨top, bot, h1, e, hp, ltop, lbot, otop, obot, hvals⟩ := ih (by omega)
    have i11 : i < A11.length := by rw [h11.1]; omega
    have i12 : i < A12.length := by rw [h12.1]; omega
    have i21 : i < A21.length := by rw [h21.1]; omega
    have i22 : i < A22.length := by rw [h22.1]; omega
    have ra := h11.2 _ (getD_mem i11)
    have rb := h12.2 _ (getD_mem i12)
    have rc := h21.2 _ (getD_mem i21)
    have rd := h22.2 _ (getD_mem i22)
    have ca := t11 _ (getD_mem i11)
    have cc := t21 _ (getD_mem i21)
    have f1 := append_fresh grow (SliceOK_ext hp ra.1) (SliceOK_ext hp rb.1)
      (by rw [ra.2, rb.2, ca, ra.2]; omega)
    rw [rowVal_ext hp ra.1, rowVal_ext hp rb.1] at f1
    have es : combineRows grow h A11 A12 A21 A22 (i + 1) = .ok
        (top ++ [(append grow h1 (A11.getD i nilSlice) (A12.getD i nilSlice)).1],
         bot ++ [(append grow (append grow h1 (A11.getD i nilSlice) (A12.getD i nilSlice)).2
            (A21.getD i nilSlice) (A22.getD i nilSlice)).1],
         (append grow (append grow h1 (A11.getD i nilSlice) (A12.getD i nilSlice)).2
            (A21.getD i nilSlice) (A22.getD i nilSlice)).2) := by
      simp only [combineRows, e, Res.ok_bind, rowAt_ok i11, rowAt_ok i12, rowAt_ok i21,
        rowAt_ok i22, Res.pure_eq]
    generalize append grow h1 (A11.getD i nilSlice) (A12.getD i nilSlice) = p1 at f1 es
    obtain ⟨r1, h2⟩ := p1
    obtain ⟨p12, ok1, len1, val1⟩ := f1
    have hp2 := hp.trans p12
    have f2 := append_fresh grow (SliceOK_ext hp2 rc.1) (SliceOK_ext hp2 rd.1)
      (by rw [rc.2, rd.2, cc, rc.2]; omega)
    rw [rowVal_ext hp2 rc.1, rowVal_ext hp2 rd.1] at f2
    generalize append grow h2 (A21.getD i nilSlice) (A22.getD i nilSlice) = p2 at f2 es
    obtain ⟨r2, h3⟩ := p2
    obtain ⟨p23, ok2, len2, val2⟩ := f2
    simp only at ok1 len1 val1 ok2 len2 val2 p12 p23
    refine ⟨top ++ [r1], bot ++ [r2], h3, es, hp2.trans p23, by simp [ltop], by simp [lbot],
      ?_, ?_, ?_⟩
    · intro s hs
      rcases List.mem_append.1 hs with hs | hs
      · exact ⟨SliceOK_ext (p12.trans p23) (otop s hs).1, (otop s hs).2⟩
      · rw [List.mem_singleton] at hs
        subst hs
        exact ⟨SliceOK_ext p23 ok1, by rw [len1, ra.2, rb.2]; omega⟩
    · intro s hs
      rcases List.mem_append.1 hs with hs | hs
      · exact ⟨SliceOK_ext (p12.trans p23) (obot s hs).1, (obot s hs).2⟩
      · rw [List.mem_singleton] at hs
        subst hs
        exact ⟨ok2, by rw [len2, rc.2, rd.2]; omega⟩
    · intro r hr
      by_cases hri : r < i
      · have hrt : r < top.length := by omega
        have hrb : r < bot.length := by omega
        have g1 : (top ++ [r1]).getD r nilSlice = top.getD r nilSlice := by
          simp [List.getD_eq_getElem?_getD, List.getElem?_append_left hrt]
        have g2 : (bot ++ [r2]).getD r nilSlice = bot.getD r nilSlice := by
          simp [List.getD_eq_getElem?_getD, List.getElem?_append_left hrb]
        rw [g1, g2, rowVal_ext (p12.trans p23) (otop _ (getD_mem hrt)).1,
          rowVal_ext (p12.trans p23) (obot _ (getD_mem hrb)).1]
        exact hvals r hri
      · have hri' : r = i := by omega
        subst hri'
        have g1 : (top ++ [r1]).getD r nilSlice = r1 := by
          simp [List.getD_eq_getElem?_getD, ← ltop]
        have g2 : (bot ++ [r2]).getD r nilSlice = r2 := by
          simp [List.getD_eq_getElem?_getD, ← lbot]
        rw [g1, g2, rowVal_ext p23 ok1]
        exact ⟨val1, val2⟩

/-- What `combineMat` returns on four square matrices of order `m` whose left
quadrants have rows without spare capacity: a square matrix of order `2 * m`,
in new arrays, whose rows are the concatenations. -/
theorem combine_spec (grow : Nat → Nat → Nat) {h : Heap} {A11 A12 A21 A22 : Matrix}
    {m : Nat} (h11 : IsSquare h A11 m) (h12 : IsSquare h A12 m) (h21 : IsSquare h A21 m)
    (h22 : IsSquare h A22 m) (t11 : Tight A11) (t21 : Tight A21) :
    ∃ C h', combineMat grow h A11 A12 A21 A22 = .ok (C, h') ∧ h <+: h' ∧
      IsSquare h' C (2 * m) ∧
      ∀ i, i < m →
        rowVal h' (C.getD i nilSlice)
          = rowVal h (A11.getD i nilSlice) ++ rowVal h (A12.getD i nilSlice) ∧
        rowVal h' (C.getD (i + m) nilSlice)
          = rowVal h (A21.getD i nilSlice) ++ rowVal h (A22.getD i nilSlice) := by
  obtain ⟨top, bot, h', e, hp, ltop, lbot, otop, obot, hvals⟩ :=
    combineRows_spec grow h11 h12 h21 h22 t11 t21 m (le_refl m)
  refine ⟨top ++ bot, h', ?_, hp, ⟨by simp [ltop, lbot]; omega, ?_⟩, ?_⟩
  · simp only [combineMat, h11.1, e, Res.ok_bind, Res.pure_eq]
  · intro s hs
    rcases List.mem_append.1 hs with hs | hs
    · exact otop s hs
    · exact obot s hs
  · intro i hi
    have g1 : (top ++ bot).getD i nilSlice = top.getD i nilSlice := by
      simp [List.getD_eq_getElem?_getD, List.getElem?_append_left (show i < top.length by omega)]
    have g2 : (top ++ bot).getD (i + m) nilSlice = bot.getD i nilSlice := by
      simp [List.getD_eq_getElem?_getD,
        List.getElem?_append_right (show top.length ≤ i + m by omega), ltop]
    rw [g1, g2]
    exact hvals i hi

/-! ### Arithmetic modulo `2 ^ 64` and the algebra of one Strassen step -/

theorem wrap64_inRange (x : Int) : InInt64 (wrap64 x) := by
  unfold InInt64 wrap64
  omega

theorem wrap64_of_inRange {x : Int} (hx : InInt64 x) : wrap64 x = x := by
  unfold InInt64 at hx
  unfold wrap64
  omega

theorem cast_wrap64 (x : Int) :
    ((wrap64 x : Int) : ZMod 18446744073709551616) = (x : ZMod 18446744073709551616) := by
  have h := ZMod.intCast_mod (x + 9223372036854775808) 18446744073709551616
  unfold wrap64
  push_cast at h ⊢
  rw [h]
  ring

theorem wrap64_congr {a b : Int}
    (h : (a : ZMod 18446744073709551616) = (b : ZMod 18446744073709551616)) :
    wrap64 a = wrap64 b := by
  have h1 := (ZMod.intCast_eq_intCast_iff' a b 18446744073709551616).1 h
  unfold wrap64
  push_cast at h1
  omega

theorem dot64_eq (f g : Nat → Int) (n : Nat) :
    dot64 f g n = wrap64 (∑ l in Finset.range n, f l * g l) := by
  induction n with
  | zero => rfl
  | succ n ih =>
    rw [dot64, ih]
    apply wrap64_congr
    rw [Finset.sum_range_succ]
    push_cast [cast_wrap64]
    rfl

theorem sum_split (F : Nat → ZMod 18446744073709551616) (m : Nat) :
    ∑ l in Finset.range (2 * m), F l
      = ∑ l in Finset.range m, F l + ∑ l in Finset.range m, F (l + m) := by
  rw [two_mul, Finset.sum_range_add]
  simp only [Nat.add_comm]

theorem strassenF_11 (m : Nat) (f g : Nat → Nat → Int) (i j : Nat) :
    (strassenF m f g).1 i j = mulF (2 * m) f g i j := by
  simp only [strassenF, addF, subF, mulF, quadF]
  apply wrap64_congr
  push_cast [cast_wrap64, sum_split]
  simp only [← Finset.sum_add_distrib, ← Finset.sum_sub_distrib, Nat.add_zero]
  apply Finset.sum_congr rfl
  intro l _
  ring

theorem strassenF_12 (m : Nat) (f g : Nat → Nat → Int) (i j : Nat) :
    (strassenF m f g).2.1 i j = mulF (2 * m) f g i (j + m) := by
  simp only [strassenF, addF, subF, mulF, quadF]
  apply wrap64_congr
  push_cast [cast_wrap64, sum_split]
  simp only [← Finset.sum_add_distrib, ← Finset.sum_sub_distrib, Nat.add_zero]
  apply Finset.sum_congr rfl
  intro l _
  ring

theorem strassenF_21 (m : Nat) (f g : Nat → Nat → Int) (i j : Nat) :
    (strassenF m f g).2.2.1 i j = mulF (2 * m) f g (i + m) j := by
  simp only [strassenF, addF, subF, mulF, quadF]
  apply wrap64_congr
  push_cast [cast_wrap64, sum_split]
  simp only [← Finset.sum_add_distrib, ← Finset.sum_sub_distrib, Nat.add_zero]
  apply Finset.sum_congr rfl
  intro l _
  ring

theorem strassenF_22 (m : Nat) (f g : Nat → Nat → Int) (i j : Nat) :
    (strassenF m f g).2.2.2 i j = mulF (2 * m) f g (i + m) (j + m) := by
  simp only [strassenF, addF, subF, mulF, quadF]
  apply wrap64_congr
  push_cast [cast_wrap64, sum_split]
  simp only [← Finset.sum_add_distrib, ← Finset.sum_sub_distrib, Nat.add_zero]
  apply Finset.sum_congr rfl
  intro l _
  ring

/-! ### The engine -/

theorem Shows_self {h : Heap} {M : Matrix} {n : Nat} (hM : IsSquare h M n) :
    Shows h M n (ent h M) :=
  ⟨hM, fun _ _ _ _ => rfl⟩

theorem Shows_ext {h h' : Heap} (hp : h <+: h') {M : Matrix} {n : Nat}
    {f : Nat → Nat → Int} (hM : Shows h M n f) : Shows h' M n f :=
  ⟨IsSquare_ext hp hM.1, fun i j hi hj => by rw [ent_ext hp hM.1]; exact hM.2 i j hi hj⟩

theorem add_shows {h : Heap} {A B : Matrix} {n : Nat} {f g : Nat → Nat → Int}
    (hA : Shows h A n f) (hB : Shows h B n g) :
    ∃ C h', addMat h A B = .ok (C, h') ∧ h <+: h' ∧ Tight C ∧ Shows h' C n (addF f g) := by
  obtain ⟨C, h', e, hp, sq, t, hv⟩ := elem_spec (fun a b => wrap64 (a + b)) hA.1 hB.1
  refine ⟨C, h', e, hp, t, sq, fun i j hi hj => ?_⟩
  rw [hv i j hi hj, hA.2 i j hi hj, hB.2 i j hi hj]
  rfl

theorem sub_shows {h : Heap} {A B : Matrix} {n : Nat} {f g : Nat → Nat → Int}
    (hA : Shows h A n f) (hB : Shows h B n g) :
    ∃ C h', subMat h A B = .ok (C, h') ∧ h <+: h' ∧ Tight C ∧ Shows h' C n (subF f g) := by
  obtain ⟨C, h', e, hp, sq, t, hv⟩ := elem_spec (fun a b => wrap64 (a - b)) hA.1 hB.1
  refine ⟨C, h', e, hp, t, sq, fun i j hi hj => ?_⟩
  rw [hv i j hi hj, hA.2 i j hi hj, hB.2 i j hi hj]
  rfl

theorem split_shows {h : Heap} {A : Matrix} {m : Nat} {f : Nat → Nat → Int}
    (hA : Shows h A (2 * m) f) :
    ∃ A11 A12 A21 A22, splitMat A m = .ok (A11, A12, A21, A22) ∧
      Shows h A11 m (quadF 0 0 f) ∧ Shows h A12 m (quadF 0 m f) ∧
      Shows h A21 m (quadF m 0 f) ∧ Shows h A22 m (quadF m m f) := by
  obtain ⟨A11, A12, A21, A22, e, s11, s12, s21, s22, hv⟩ := split_spec hA.1
  refine ⟨A11, A12, A21, A22, e, ⟨s11, fun i j hi hj => ?_⟩, ⟨s12, fun i j hi hj => ?_⟩,
    ⟨s21, fun i j hi hj => ?_⟩, ⟨s22, fun i j hi hj => ?_⟩⟩
  · rw [(hv i j hi hj).1]
    exact hA.2 i j (by omega) (by omega)
  · rw [(hv i j hi hj).2.1]
    exact hA.2 i (j + m) (by omega) (by omega)
  · rw [(hv i j hi hj).2.2.1]
    exact hA.2 (i + m) j (by omega) (by omega)
  · rw [(hv i j hi hj).2.2.2]
    exact hA.2 (i + m) (j + m) (by omega) (by omega)

theorem getD_append_left (l1 l2 : List Int) {j : Nat} (hj : j < l1.length) :
    (l1 ++ l2).getD j 0 = l1.getD j 0 := by
  simp [List.getD_eq_getElem?_getD, List.getElem?_append_left hj]

theorem getD_append_right (l1 l2 : List Int) (j : Nat) :
    (l1 ++ l2).getD (j + l1.length) 0 = l2.getD j 0 := by
  simp [List.getD_eq_getElem?_getD,
    List.getElem?_append_right (show l1.length ≤ j + l1.length by omega)]

theorem combine_shows (grow : Nat → Nat → Nat) {h : Heap} {A11 A12 A21 A22 : Matrix}
    {m : Nat} {f11 f12 f21 f22 : Nat → Nat → Int}
    (h11 : Shows h A11 m f11) (h12 : Shows h A12 m f12) (h21 : Shows h A21 m f21)
    (h22 : Shows h A22 m f22) (t11 : Tight A11) (t21 : Tight A21) :
    ∃ C h', combineMat grow h A11 A12 A21 A22 = .ok (C, h') ∧ h <+: h' ∧
      IsSquare h' C (2 * m) ∧
      ∀ i j, i < m → j < m →
        ent h' C i j = f11 i j ∧ ent h' C i (j + m) = f12 i j ∧
        ent h' C (i + m) j = f21 i j ∧ ent h' C (i + m) (j + m) = f22 i j := by
  obtain ⟨C, h', e, hp, sq, hv⟩ := combine_spec grow h11.1 h12.1 h21.1 h22.1 t11 t21
  refine ⟨C, h', e, hp, sq, fun i j hi hj => ?_⟩
  have l11 : (rowVal h (A11.getD i nilSlice)).length = m := by
    have hi' : i < A11.length := by rw [h11.1.1]; exact hi
    have := h11.1.2 _ (getD_mem hi')
    rw [rowVal_length this.1, this.2]
  have l21 : (rowVal h (A21.getD i nilSlice)).length = m := by
    have hi' : i < A21.length := by rw [h21.1.1]; exact hi
    have := h21.1.2 _ (getD_mem hi')
    rw [rowVal_length this.1, this.2]
  unfold ent
  rw [(hv i hi).1, (hv i hi).2]
  refine ⟨?_, ?_, ?_, ?_⟩
  · rw [getD_append_left _ _ (by omega)]
    exact h11.2 i j hi hj
  · have := getD_append_right (rowVal h (A11.getD i nilSlice))
      (rowVal h (A12.getD i nilSlice)) j
    rw [l11] at this
    rw [this]
    exact h12.2 i j hi hj
  · rw [getD_append_left _ _ (by omega)]
    exact h21.2 i j hi hj
  · have := getD_append_right (rowVal h (A21.getD i nilSlice))
      (rowVal h (A22.getD i nilSlice)) j
    rw [l21] at this
    rw [this]
    exact h22.2 i j hi hj

/-- The engine on square matrices of order `2 ^ k`: with fuel beyond `k` it
returns, in an extension of the heap, a square matrix showing the wrapped
product of the two arguments. -/
theorem strassen_shows (grow : Nat → Nat → Nat) :
    ∀ (k fuel : Nat) (h : Heap) (A B : Matrix) (f g : Nat → Nat → Int), k < fuel →
      Shows h A (2 ^ k) f → Shows h B (2 ^ k) g →
      ∃ C h', multiplyStrassen grow fuel h A B = .ok (C, h') ∧ h <+: h' ∧
        Shows h' C (2 ^ k) (mulF (2 ^ k) f g) := by
  intro k
  induction k with
  | zero =>
    intro fuel h A B f g hf hA hB
    obtain ⟨fuel, rfl⟩ : ∃ f', fuel = f' + 1 := ⟨fuel - 1, by omega⟩
    simp only [pow_zero] at hA hB
    have hlA : 0 < A.length := by rw [hA.1.1]; exact Nat.one_pos
    have hlB : 0 < B.length := by rw [hB.1.1]; exact Nat.one_pos
    have rA := hA.1.2 _ (getD_mem hlA)
    have rB := hB.1.2 _ (getD_mem hlB)
    have ha := alloc_spec h [wrap64 (ent h A 0 0 * ent h B 0 0)]
    have es : multiplyStrassen grow (fuel + 1) h A B
        = .ok ([(alloc h [wrap64 (ent h A 0 0 * ent h B 0 0)]).1],
            (alloc h [wrap64 (ent h A 0 0 * ent h B 0 0)]).2) := by
      simp only [multiplyStrassen, if_pos hA.1.1, rowAt_ok hlA, rowAt_ok hlB, Res.ok_bind,
        index_ok rA.1 (show 0 < _ by rw [rA.2]; exact Nat.one_pos),
        index_ok rB.1 (show 0 < _ by rw [rB.2]; exact Nat.one_pos), Res.pure_eq]
      rfl
    generalize alloc h [wrap64 (ent h A 0 0 * ent h B 0 0)] = p at ha es
    obtain ⟨s, h1⟩ := p
    obtain ⟨ap, aok, alen, acap, aval⟩ := ha
    simp only [List.length_singleton] at alen acap
    refine ⟨[s], h1, es, ap, ⟨rfl, ?_⟩, ?_⟩
    · intro t ht
      rw [List.mem_singleton] at ht
      subst ht
      exact ⟨aok, alen⟩
    · intro i j hi hj
      have hi0 : i = 0 := by omega
      have hj0 : j = 0 := by omega
      subst hi0 hj0
      simp only [pow_zero, mulF, Finset.sum_range_one]
      rw [← hA.2 0 0 Nat.one_pos Nat.one_pos, ← hB.2 0 0 Nat.one_pos Nat.one_pos]
      simp only [ent, List.getD_cons_zero] at aval ⊢
      rw [aval]
      rfl
  | succ k ih =>
    intro fuel h0 A B f g hf hA hB
    obtain ⟨fuel, rfl⟩ : ∃ f', fuel = f' + 1 := ⟨fuel - 1, by omega⟩
    have hk : k < fuel := by omega
    have hpow : 2 ^ (k + 1) = 2 * 2 ^ k := by rw [pow_succ, mul_comm]
    rw [hpow] at hA hB ⊢
    have hpos : 0 < 2 ^ k := Nat.pos_pow_of_pos k (by decide)
    have hlen : ¬ A.length = 1 := by rw [hA.1.1]; omega
    have hdiv : A.length / 2 = 2 ^ k := by rw [hA.1.1]; omega
    obtain ⟨A11, A12, A21, A22, eA, sA11, sA12, sA21, sA22⟩ := split_shows hA
    obtain ⟨B11, B12, B21, B22, eB, sB11, sB12, sB21, sB22⟩ := split_shows hB
    obtain ⟨S1, h1, e1, p1, tS1, sS1⟩ := add_shows sA11 sA22
    obtain ⟨T1, h2, e2, p2, tT1, sT1⟩ := add_shows (Shows_ext p1 sB11) (Shows_ext p1 sB22)
    obtain ⟨M1, h3, e3, p3, sM1⟩ := ih fuel h2 S1 T1 _ _ hk (Shows_ext p2 sS1) sT1
    obtain ⟨S2, h4, e4, p4, tS2, sS2⟩ := add_shows (Shows_ext (p1.trans (p2.trans p3)) sA21) (Shows_ext (p1.trans (p2.trans p3)) sA22)
    obtain ⟨M2, h5, e5, p5, sM2⟩ := ih fuel h4 S2 B11 _ _ hk sS2 (Shows_ext (p1.trans (p2.trans (p3.trans p4))) sB11)
    obtain ⟨T3, h6, e6, p6, tT3, sT3⟩ := sub_shows (Shows_ext (p1.trans (p2.trans (p3.trans (p4.trans p5)))) sB12) (Shows_ext (p1.trans (p2.trans (p3.trans (p4.trans p5)))) sB22)
    obtain ⟨M3, h7, e7, p7, sM3⟩ := ih fuel h6 A11 T3 _ _ hk (Shows_ext (p1.trans (p2.trans (p3.trans (p4.trans (p5.trans p6))))) sA11) sT3
    obtain ⟨T4, h8, e8, p8, tT4, sT4⟩ := sub_shows (Shows_ext (p1.trans (p2.trans (p3.trans (p4.trans (p5.trans (p6.trans p7)))))) sB21) (Shows_ext (p1.trans (p2.trans (p3.trans (p4.trans (p5.trans (p6.trans p7)))))) sB11)
    obtain ⟨M4, h9, e9, p9, sM4⟩ := ih fuel h8 A22 T4 _ _ hk (Shows_ext (p1.trans (p2.trans (p3.trans (p4.trans (p5.trans (p6.trans (p7.trans p8))))))) sA22) sT4
    obtain ⟨S5, h10, e10, p10, tS5, sS5⟩ := add_shows (Shows_ext (p1.trans (p2.trans (p3.trans (p4.trans (p5.trans (p6.trans (p7.trans (p8.trans p9)))))))) sA11) (Shows_ext (p1.trans (p2.trans (p3.trans (p4.trans (p5.trans (p6.trans (p7.trans (p8.trans p9)))))))) sA12)
    obtain ⟨M5, h11, e11, p11, sM5⟩ := ih fuel h10 S5 B22 _ _ hk sS5 (Shows_ext (p1.trans (p2.trans (p3.trans (p4.trans (p5.trans (p6.trans (p7.trans (p8.trans (p9.trans p10))))))))) sB22)
    obtain ⟨S6, h12, e12, p12, tS6, sS6⟩ := sub_shows (Shows_ext (p1.trans (p2.trans (p3.trans (p4.trans (p5.trans (p6.trans (p7.trans (p8.trans (p9.trans (p10.trans p11)))))))))) sA21) (Shows_ext (p1.trans (p2.trans (p3.trans (p4.trans (p5.trans (p6.trans (p7.trans (p8.trans (p9.trans (p10.trans p11)))))))))) sA11)
    obtain ⟨T6, h13, e13, p13, tT6, sT6⟩ := add_shows (Shows_ext (p1.trans (p2.trans (p3.trans (p4.trans (p5.trans (p6.trans (p7.trans (p8.trans (p9.trans (p10.trans (p11.trans p12))))))))))) sB11) (Shows_ext (p1.trans (p2.trans (p3.trans (p4.trans (p5.trans (p6.trans (p7.trans (p8.trans (p9.trans (p10.trans (p11.trans p12))))))))))) sB12)
    obtain ⟨M6, h14, e14, p14, sM6⟩ := ih fuel h13 S6 T6 _ _ hk (Shows_ext p13 sS6) sT6
    obtain ⟨S7, h15, e15, p15, tS7, sS7⟩ := sub_shows (Shows_ext (p1.trans (p2.trans (p3.trans (p4.trans (p5.trans (p6.trans (p7.trans (p8.trans (p9.trans (p10.trans (p11.trans (p12.trans (p13.trans p14))))))))))))) sA12) (Shows_ext (p1.trans (p2.trans (p3.trans (p4.trans (p5.trans (p6.trans (p7.trans (p8.trans (p9.trans (p10.trans (p11.trans (p12.trans (p13.trans p14))))))))))))) sA22)
    obtain ⟨T7, h16, e16, p16, tT7, sT7⟩ := add_shows (Shows_ext (p1.trans (p2.trans (p3.trans (p4.trans (p5.trans (p6.trans (p7.trans (p8.trans (p9.trans (p10.trans (p11.trans (p12.trans (p13.trans (p14.trans p15)))))))))))))) sB21) (Shows_ext (p1.trans (p2.trans (p3.trans (p4.trans (p5.trans (p6.trans (p7.trans (p8.trans (p9.trans (p10.trans (p11.trans (p12.trans (p13.trans (p14.trans p15)))))))))))))) sB22)
    obtain ⟨M7, h17, e17, p17, sM7⟩ := ih fuel h16 S7 T7 _ _ hk (Shows_ext p16 sS7) sT7
    obtain ⟨X1, h18, e18, p18, tX1, sX1⟩ := add_shows (Shows_ext (p4.trans (p5.trans (p6.trans (p7.trans (p8.trans (p9.trans (p10.trans (p11.trans (p12.trans (p13.trans (p14.trans (p15.trans (p16.trans p17))))))))))))) sM1) (Shows_ext (p10.trans (p11.trans (p12.trans (p13.trans (p14.trans (p15.trans (p16.trans p17))))))) sM4)
    obtain ⟨X2, h19, e19, p19, tX2, sX2⟩ := sub_shows sX1 (Shows_ext (p12.trans (p13.trans (p14.trans (p15.trans (p16.trans (p17.trans p18)))))) sM5)
    obtain ⟨C11, h20, e20, p20, tC11, sC11⟩ := add_shows sX2 (Shows_ext (p18.trans p19) sM7)
    obtain ⟨C12, h21, e21, p21, tC12, sC12⟩ := add_shows (Shows_ext (p8.trans (p9.trans (p10.trans (p11.trans (p12.trans (p13.trans (p14.trans (p15.trans (p16.trans (p17.trans (p18.trans (p19.trans p20)))))))))))) sM3) (Shows_ext (p12.trans (p13.trans (p14.trans (p15.trans (p16.trans (p17.trans (p18.trans (p19.trans p20)))))))) sM5)
    obtain ⟨C21, h22, e22, p22, tC21, sC21⟩ := add_shows (Shows_ext (p6.trans (p7.trans (p8.trans (p9.trans (p10.trans (p11.trans (p12.trans (p13.trans (p14.trans (p15.trans (p16.trans (p17.trans (p18.trans (p19.trans (p20.trans p21))))))))))))))) sM2) (Shows_ext (p10.trans (p11.trans (p12.trans (p13.trans (p14.trans (p15.trans (p16.trans (p17.trans (p18.trans (p19.trans (p20.trans p21))))))))))) sM4)
    obtain ⟨Y1, h23, e23, p23, tY1, sY1⟩ := add_shows (Shows_ext (p4.trans (p5.trans (p6.trans (p7.trans (p8.trans (p9.trans (p10.trans (p11.trans (p12.trans (p13.trans (p14.trans (p15.trans (p16.trans (p17.trans (p18.trans (p19.trans (p20.trans (p21.trans p22)))))))))))))))))) sM1) (Shows_ext (p8.trans (p9.trans (p10.trans (p11.trans (p12.trans (p13.trans (p14.trans (p15.trans (p16.trans (p17.trans (p18.trans (p19.trans (p20.trans (p21.trans p22)))))))))))))) sM3)
    obtain ⟨Y2, h24, e24, p24, tY2, sY2⟩ := sub_shows sY1 (Shows_ext (p6.trans (p7.trans (p8.trans (p9.trans (p10.trans (p11.trans (p12.trans (p13.trans (p14.trans (p15.trans (p16.trans (p17.trans (p18.trans (p19.trans (p20.trans (p21.trans (p22.trans p23))))))))))))))))) sM2)
    obtain ⟨C22, h25, e25, p25, tC22, sC22⟩ := add_shows sY2 (Shows_ext (p15.trans (p16.trans (p17.trans (p18.trans (p19.trans (p20.trans (p21.trans (p22.trans (p23.trans p24))))))))) sM6)
    obtain ⟨C, h26, e26, p26, sqC, hC⟩ := combine_shows grow (Shows_ext (p21.trans (p22.trans (p23.trans (p24.trans p25)))) sC11) (Shows_ext (p22.trans (p23.trans (p24.trans p25))) sC12) (Shows_ext (p23.trans (p24.trans p25)) sC21) sC22 tC11 tC21
    refine ⟨C, h26, ?_, (p1.trans (p2.trans (p3.trans (p4.trans (p5.trans (p6.trans (p7.trans (p8.trans (p9.trans (p10.trans (p11.trans (p12.trans (p13.trans (p14.trans (p15.trans (p16.trans (p17.trans (p18.trans (p19.trans (p20.trans (p21.trans (p22.trans (p23.trans (p24.trans (p25.trans p26))))))))))))))))))))))))), sqC, ?_⟩
    · rw [multiplyStrassen, if_neg hlen]
      simp only [hdiv]
      refine (Res.bind_of_eq_ok eA _).trans ?_
      refine (Res.bind_of_eq_ok eB _).trans ?_
      refine (Res.bind_of_eq_ok e1 _).trans ?_
      refine (Res.bind_of_eq_ok e2 _).trans ?_
      refine (Res.bind_of_eq_ok e3 _).trans ?_
      refine (Res.bind_of_eq_ok e4 _).trans ?_
      refine (Res.bind_of_eq_ok e5 _).trans ?_
      refine (Res.bind_of_eq_ok e6 _).trans ?_
      refine (Res.bind_of_eq_ok e7 _).trans ?_
      refine (Res.bind_of_eq_ok e8 _).trans ?_
      refine (Res.bind_of_eq_ok e9 _).trans ?_
      refine (Res.bind_of_eq_ok e10 _).trans ?_
      refine (Res.bind_of_eq_ok e11 _).trans ?_
      refine (Res.bind_of_eq_ok e12 _).trans ?_
      refine (Res.bind_of_eq_ok e13 _).trans ?_
      refine (Res.bind_of_eq_ok e14 _).trans ?_
      refine (Res.bind_of_eq_ok e15 _).trans ?_
      refine (Res.bind_of_eq_ok e16 _).trans ?_
      refine (Res.bind_of_eq_ok e17 _).trans ?_
      refine (Res.bind_of_eq_ok e18 _).trans ?_
      refine (Res.bind_of_eq_ok e19 _).trans ?_
      refine (Res.bind_of_eq_ok e20 _).trans ?_
      refine (Res.bind_of_eq_ok e21 _).trans ?_
      refine (Res.bind_of_eq_ok e22 _).trans ?_
      refine (Res.bind_of_eq_ok e23 _).trans ?_
      refine (Res.bind_of_eq_ok e24 _).trans ?_
      refine (Res.bind_of_eq_ok e25 _).trans ?_
      exact e26
    · intro i j hi hj
      by_cases hi' : i < 2 ^ k
      · by_cases hj' : j < 2 ^ k
        · rw [(hC i j hi' hj').1]
          exact strassenF_11 (2 ^ k) f g i j
        · obtain ⟨j, rfl⟩ : ∃ j', j = j' + 2 ^ k := ⟨j - 2 ^ k, by omega⟩
          rw [(hC i j hi' (by omega)).2.1]
          exact strassenF_12 (2 ^ k) f g i j
      · obtain ⟨i, rfl⟩ : ∃ i', i = i' + 2 ^ k := ⟨i - 2 ^ k, by omega⟩
        by_cases hj' : j < 2 ^ k
        · rw [(hC i j (by omega) hj').2.2.1]
          exact strassenF_21 (2 ^ k) f g i j
        · obtain ⟨j, rfl⟩ : ∃ j', j = j' + 2 ^ k := ⟨j - 2 ^ k, by omega⟩
          rw [(hC i j (by omega) (by omega)).2.2.2]
          exact strassenF_22 (2 ^ k) f g i j

/-! ### The order check -/

theorem and_pred_eq_zero_iff : ∀ N : Nat, 0 < N → (N &&& (N - 1) = 0 ↔ ∃ k : Nat, N = 2 ^ k) := by
  intro N
  induction N using Nat.strong_induction_on with
  | _ N ih =>
    intro hN
    have hmod : (N &&& (N - 1)) % 2 = 0 := by
      have h1 := @Nat.and_mod_two_eq_one N (N - 1)
      have h2 : ¬ (N % 2 = 1 ∧ (N - 1) % 2 = 1) := by omega
      have h3 : ¬ ((N &&& (N - 1)) % 2 = 1) := fun hc => h2 (h1.1 hc)
      omega
    have hdiv : (N &&& (N - 1)) / 2 = N / 2 &&& (N - 1) / 2 := Nat.and_div_two
    have key : N &&& (N - 1) = 0 ↔ N / 2 &&& (N - 1) / 2 = 0 := by
      rw [← hdiv]
      omega
    rw [key]
    rcases Nat.even_or_odd' N with ⟨q, hq | hq⟩
    · have hq0 : 0 < q := by omega
      have e1 : N / 2 = q := by omega
      have e2 : (N - 1) / 2 = q - 1 := by omega
      rw [e1, e2, ih q (by omega) hq0]
      constructor
      · rintro ⟨k, rfl⟩
        exact ⟨k + 1, by rw [hq, pow_succ, mul_comm]⟩
      · rintro ⟨k, hk⟩
        cases k with
        | zero => simp at hk; omega
        | succ k => exact ⟨k, by rw [pow_succ] at hk; omega⟩
    · have e1 : N / 2 = q := by omega
      have e2 : (N - 1) / 2 = q := by omega
      rw [e1, e2, Nat.and_self]
      constructor
      · intro h0
        exact ⟨0, by rw [hq, h0]; rfl⟩
      · rintro ⟨k, hk⟩
        cases k with
        | zero => simp at hk; omega
        | succ k => rw [pow_succ] at hk; omega

theorem toU64_natCast {N : Nat} (hN : N < 18446744073709551616) : toU64 (N : Int) = N := by
  unfold toU64
  omega

/-- On a positive `int64`, `isPowerOfTwo` holds exactly for the powers of two. -/
theorem isPowerOfTwo_pos {n : Int} (h0 : 0 < n) (hr : InInt64 n) :
    isPowerOfTwo n = true ↔ ∃ k : Nat, n = 2 ^ k := by
  obtain ⟨N, rfl⟩ : ∃ N : Nat, n = (N : Int) := ⟨n.toNat, by omega⟩
  unfold InInt64 at hr
  have hN0 : 0 < N := by omega
  have hN : N < 9223372036854775808 := by omega
  have e1 : wrap64 ((N : Int) - 1) = ((N - 1 : Nat) : Int) := by
    unfold wrap64
    omega
  have hle : N &&& (N - 1) ≤ N := Nat.and_le_left
  have e2 : and64 (N : Int) (((N - 1 : Nat) : Int)) = ((N &&& (N - 1) : Nat) : Int) := by
    unfold and64
    rw [toU64_natCast (by omega), toU64_natCast (by omega)]
    unfold wrap64
    simp only [Int.ofNat_eq_coe]
    omega
  unfold isPowerOfTwo
  rw [e1, e2, beq_iff_eq]
  rw [show (((N &&& (N - 1) : Nat) : Int) = 0) ↔ (N &&& (N - 1)) = 0 by exact Int.natCast_eq_zero]
  rw [and_pred_eq_zero_iff N hN0]
  constructor
  · rintro ⟨k, hk⟩
    exact ⟨k, by rw [hk]; push_cast; rfl⟩
  · rintro ⟨k, hk⟩
    exact ⟨k, by exact_mod_cast hk⟩

theorem testBit_63 {U : Nat} (h1 : 9223372036854775808 ≤ U) (h2 : U < 18446744073709551616) :
    U.testBit 63 = true := by
  rw [Nat.testBit_to_div_mod]
  simp only [decide_eq_true_eq]
  norm_num
  omega

/-- On a negative `int64` other than the least one, `isPowerOfTwo` is false. -/
theorem isPowerOfTwo_neg {n : Int} (h0 : n < 0) (hr : -9223372036854775808 < n) :
    isPowerOfTwo n = false := by
  obtain ⟨U, hU⟩ : ∃ U : Nat, (U : Int) = n + 18446744073709551616 :=
    ⟨(n + 18446744073709551616).toNat, by omega⟩
  have e1 : wrap64 (n - 1) = n - 1 := by
    unfold wrap64
    omega
  have u1 : toU64 n = U := by
    unfold toU64
    omega
  have u2 : toU64 (n - 1) = U - 1 := by
    unfold toU64
    omega
  have b1 : U.testBit 63 = true := testBit_63 (by omega) (by omega)
  have b2 : (U - 1).testBit 63 = true := testBit_63 (by omega) (by omega)
  have b : (U &&& (U - 1)).testBit 63 = true := by
    rw [Nat.testBit_and, b1, b2]
    rfl
  have hge : 2 ^ 63 ≤ U &&& (U - 1) := Nat.testBit_implies_ge b
  have hle : U &&& (U - 1) ≤ U := Nat.and_le_left
  unfold isPowerOfTwo
  rw [e1]
  unfold and64
  rw [u1, u2]
  generalize U &&& (U - 1) = x at hge hle
  norm_num at hge
  have : wrap64 (Int.ofNat x) ≠ 0 := by
    unfold wrap64
    simp only [Int.ofNat_eq_coe]
    omega
  simpa using this

/-- The set of `int64` values that `isPowerOfTwo` accepts. -/
theorem isPowerOfTwo_iff {n : Int} (hr : InInt64 n) :
    isPowerOfTwo n = true ↔
      n = 0 ∨ n = -9223372036854775808 ∨ (0 < n ∧ ∃ k : Nat, n = 2 ^ k) := by
  rcases lt_trichotomy n 0 with hn | hn | hn
  · by_cases hmin : n = -9223372036854775808
    · subst hmin
      simp only [true_or, or_true, iff_true]
      decide
    · have hf := isPowerOfTwo_neg hn (by unfold InInt64 at hr; omega)
      rw [hf]
      constructor
      · intro h; cases h
      · rintro (h | h | h)
        · omega
        · exact absurd h hmin
        · omega
  · subst hn
    simp only [true_or, iff_true]
    decide
  · rw [isPowerOfTwo_pos hn hr]
    constructor
    · intro h
      exact Or.inr (Or.inr ⟨hn, h⟩)
    · rintro (h | h | h)
      · omega
      · omega
      · exact h.2

/-! ### Combining the quadrants of one matrix -/

theorem writeAt_self (a : List Int) (p c : Nat) (hc : p + c ≤ a.length) :
    writeAt a p ((a.drop p).take c) = a := by
  unfold writeAt
  have hl : ((a.drop p).take c).length = c := by
    rw [List.length_take, List.length_drop]
    omega
  rw [hl, List.append_assoc]
  have : List.take c (List.drop p a) ++ List.drop (p + c) a = List.drop p a := by
    rw [← List.drop_drop]
    exact List.take_append_drop c (List.drop p a)
  rw [this]
  exact List.take_append_drop p a

theorem heap_set_self (h : Heap) (a : Nat) : h.set a (h.getD a []) = h := by
  apply List.ext_getElem?
  intro i
  by_cases hi : a = i
  · subst hi
    by_cases ha : a < h.length
    · simp [List.getD_eq_getElem?_getD, List.getElem?_eq_getElem ha, ha]
    · have ha' : h.length ≤ a := Nat.le_of_not_lt ha
      simp [List.getElem?_eq_none ha', ha']
  · simp [List.getElem?_set_ne hi]

/-- Appending the right half of a row to its left half writes the row onto
itself: the header is the row again and the heap is unchanged. -/
theorem append_halves (grow : Nat → Nat → Nat) {h : Heap} {s : Slice} (hs : SliceOK h s)
    {m : Nat} (hm : m ≤ s.len) :
    append grow h (leftHalf s m) (rightHalf s m) = (s, h) := by
  obtain ⟨h1, h2⟩ := hs
  have hc : (leftHalf s m).len + (rightHalf s m).len ≤ (leftHalf s m).cap := by
    show m + (s.len - m) ≤ s.cap
    omega
  unfold append
  rw [if_pos hc]
  have e1 : ({ leftHalf s m with len := (leftHalf s m).len + (rightHalf s m).len } : Slice) = s := by
    cases s
    simp only [leftHalf, rightHalf, Slice.mk.injEq, true_and, and_true] at hm ⊢
    omega
  have e2 : writeAt (h.getD (leftHalf s m).arr []) ((leftHalf s m).off + (leftHalf s m).len)
      (rowVal h (rightHalf s m)) = h.getD s.arr [] := by
    show writeAt (h.getD s.arr []) (s.off + m)
      (((h.getD s.arr []).drop (s.off + m)).take (s.len - m)) = _
    exact writeAt_self _ _ _ (by omega)
  rw [e1, e2]
  show (s, h.set s.arr (h.getD s.arr [])) = (s, h)
  rw [heap_set_self]

theorem combineRows_split (grow : Nat → Nat → Nat) {h : Heap} {M : Matrix} {m : Nat}
    (hM : IsSquare h M (2 * m)) :
    ∀ i, i ≤ m → combineRows grow h
        ((List.range m).map (fun r => leftHalf (M.getD r nilSlice) m))
        ((List.range m).map (fun r => rightHalf (M.getD r nilSlice) m))
        ((List.range m).map (fun r => leftHalf (M.getD (r + m) nilSlice) m))
        ((List.range m).map (fun r => rightHalf (M.getD (r + m) nilSlice) m)) i
      = .ok ((List.range i).map (fun r => M.getD r nilSlice),
          (List.range i).map (fun r => M.getD (r + m) nilSlice), h) := by
  intro i
  induction i with
  | zero => intro _; rfl
  | succ i ih =>
    intro hi
    have e := ih (by omega)
    have him : i < m := by omega
    have h1 : i < M.length := by rw [hM.1]; omega
    have h2 : i + m < M.length := by rw [hM.1]; omega
    have r1 := hM.2 _ (getD_mem h1)
    have r2 := hM.2 _ (getD_mem h2)
    have hl : ∀ f : Nat → Slice, i < ((List.range m).map f).length := by
      intro f; simp; exact him
    simp only [combineRows, e, Res.ok_bind, rowAt_ok (hl _), getD_map_range him,
      append_halves grow r1.1 (show m ≤ _ by omega),
      append_halves grow r2.1 (show m ≤ _ by omega), Res.pure_eq,
      List.range_succ, List.map_append, List.map_cons, List.map_nil]

theorem range_halves (M : Matrix) {m : Nat} (hM : M.length = 2 * m) :
    (List.range m).map (fun r => M.getD r nilSlice)
      ++ (List.range m).map (fun r => M.getD (r + m) nilSlice) = M := by
  apply List.ext_getElem?
  intro i
  by_cases h1 : i < m
  · rw [List.getElem?_append_left (by simp; exact h1)]
    simp [List.getElem?_range h1, h1, List.getD_eq_getElem?_getD,
      List.getElem?_eq_getElem (show i < M.length by omega)]
  · rw [List.getElem?_append_right (by simp; omega)]
    simp only [List.length_map, List.length_range]
    by_cases h2 : i < 2 * m
    · have h3 : i - m < m := by omega
      simp [List.getElem?_range h3, h3, List.getD_eq_getElem?_getD,
        List.getElem?_eq_getElem (show i < M.length by omega),
        show i - m + m = i by omega]
    · rw [List.getElem?_eq_none (by simp; omega), List.getElem?_eq_none (by omega)]

/-- Splitting a square matrix of even order and combining the quadrants gives
back the very rows of the matrix, in an unchanged heap. -/
theorem combine_split_eq (grow : Nat → Nat → Nat) {h : Heap} {M : Matrix} {m : Nat}
    (hM : IsSquare h M (2 * m)) :
    ∃ A11 A12 A21 A22, splitMat M m = .ok (A11, A12, A21, A22) ∧
      combineMat grow h A11 A12 A21 A22 = .ok (M, h) := by
  refine ⟨_, _, _, _, splitRows_spec hM m (le_refl m), ?_⟩
  simp only [combineMat, List.length_map, List.length_range,
    combineRows_split grow hM m (le_refl m), Res.ok_bind, Res.pure_eq, range_halves M hM.1]

/-! ### Statements about the program -/

/-- C1: for square matrices `A` and `B` of the same order `n = 2 ^ k`,
`multiplyStrassen` returns (given fuel beyond `k`) the square matrix of order `n`
whose element `(i, j)` is the sum over `l` of `A[i][l] * B[l][j]`, with sum and
product taken in wrapping 64-bit arithmetic. -/
theorem multiplyStrassen_eq_naive (grow : Nat → Nat → Nat) (k fuel : Nat) (h : Heap)
    (A B : Matrix) (hf : k < fuel) (hA : IsSquare h A (2 ^ k)) (hB : IsSquare h B (2 ^ k)) :
    ∃ C h', multiplyStrassen grow fuel h A B = .ok (C, h') ∧ IsSquare h' C (2 ^ k) ∧
      ∀ i j, i < 2 ^ k → j < 2 ^ k →
        ent h' C i j = dot64 (fun l => ent h A i l) (fun l => ent h B l j) (2 ^ k) := by
  obtain ⟨C, h', e, _, sq, hv⟩ :=
    strassen_shows grow k fuel h A B _ _ hf (Shows_self hA) (Shows_self hB)
  refine ⟨C, h', e, sq, fun i j hi hj => ?_⟩
  rw [hv i j hi hj, dot64_eq]
  rfl

/-- Witness of C1: `[[1,2],[3,4]]` times `[[5,6],[7,8]]` is `[[19,22],[43,50]]`. -/
theorem multiplyStrassen_eq_naive_witness :
    (IsSquare exHeap exA (2 ^ 1) ∧ IsSquare exHeap exB (2 ^ 1)) ∧
    (∃ C h', multiplyStrassen growExact 2 exHeap exA exB = .ok (C, h') ∧
      IsSquare h' C (2 ^ 1) ∧
      ∀ i j, i < 2 ^ 1 → j < 2 ^ 1 →
        ent h' C i j
          = dot64 (fun l => ent exHeap exA i l) (fun l => ent exHeap exB l j) (2 ^ 1)) ∧
    resultVal (multiplyStrassen growExact 2 exHeap exA exB) = some [[19, 22], [43, 50]] :=
  ⟨⟨by decide, by decide⟩,
    multiplyStrassen_eq_naive growExact 1 2 exHeap exA exB (by decide) (by decide) (by decide),
    by decide⟩

/-- C2 (the code at the failing input): `isPowerOfTwo` accepts zero, and also the
least `int64`, neither of which is a positive integer with one set bit. -/
theorem isPowerOfTwo_zero :
    isPowerOfTwo 0 = true ∧ isPowerOfTwo (-9223372036854775808) = true := by
  decide

/-- C3 (counterexample): equal orders that are not a power of two (`3`, `3`) and
differing orders (`4`, `8`) are answered with one and the same error, not with
two distinct ones. -/
theorem handler_errors_not_distinct :
    multiplicationHandler growExact 1 (orderRequest 3 3)
      = .ok (.httpError "Matrix dimensions do not match for multiplication" 400) ∧
    multiplicationHandler growExact 1 (orderRequest 4 8)
      = .ok (.httpError "Matrix dimensions do not match for multiplication" 400) := by
  decide

/-- C3 (amended): for a request carrying two matrices whose first declared order
is an `int64`, the handler answers with the single error "Matrix dimensions do not
match for multiplication" (status 400), whatever the fuel, whenever the declared
orders differ or the first is a positive integer that is not a power of two; it
hands the two matrices to `multiplyStrassen` and answers with its result when the
orders are equal and a positive power of two. -/
theorem handler_order_check (grow : Nat → Nat → Nat) (heap : Heap) (a b : JSONMatrix)
    (hr : InInt64 a.Order) :
    ((a.Order ≠ b.Order ∨ (0 < a.Order ∧ ¬ ∃ k : Nat, a.Order = 2 ^ k)) →
      ∀ fuel, multiplicationHandler grow fuel ⟨"POST", some [a, b], heap⟩
        = .ok (.httpError "Matrix dimensions do not match for multiplication" 400)) ∧
    ((a.Order = b.Order ∧ ∃ k : Nat, a.Order = 2 ^ k) →
      ∀ fuel, multiplicationHandler grow fuel ⟨"POST", some [a, b], heap⟩
        = (multiplyStrassen grow fuel heap a.Matrix b.Matrix >>=
            fun p => pure (Response.result (matVal p.2 p.1)))) := by
  constructor
  · intro hc fuel
    have hcond : (decide (a.Order ≠ b.Order) || !isPowerOfTwo a.Order) = true := by
      rcases hc with hc | ⟨h0, hk⟩
      · simp [hc]
      · have : isPowerOfTwo a.Order = false := by
          cases hp : isPowerOfTwo a.Order with
          | false => rfl
          | true => exact absurd ((isPowerOfTwo_pos h0 hr).1 hp) hk
        simp [this]
    simp only [multiplicationHandler, ne_eq, not_true_eq_false, if_false, hcond, if_true]
  · rintro ⟨he, k, hk⟩ fuel
    have h0 : 0 < a.Order := by rw [hk]; positivity
    have hp : isPowerOfTwo a.Order = true := (isPowerOfTwo_pos h0 hr).2 ⟨k, hk⟩
    have hcond : (decide (a.Order ≠ b.Order) || !isPowerOfTwo a.Order) = false := by
      rw [hp]
      simp [he]
    simp only [multiplicationHandler, ne_eq, not_true_eq_false, if_false, hcond]
    rfl

/-- Witness of C3 (amended): orders `3`, `3` are refused and the matrices of order
two of `exRequest` reach the engine. -/
theorem handler_order_check_witness :
    InInt64 3 ∧ InInt64 2 ∧
    (∀ fuel, multiplicationHandler growExact fuel ⟨"POST", some [⟨3, []⟩, ⟨3, []⟩], []⟩
      = .ok (.httpError "Matrix dimensions do not match for multiplication" 400)) ∧
    (∀ fuel, multiplicationHandler growExact fuel ⟨"POST", some [⟨2, exA⟩, ⟨2, exB⟩], exHeap⟩
      = (multiplyStrassen growExact fuel exHeap exA exB >>=
          fun p => pure (Response.result (matVal p.2 p.1)))) :=
  ⟨by decide, by decide,
    (handler_order_check growExact [] ⟨3, []⟩ ⟨3, []⟩ (by decide)).1
      (Or.inr ⟨by decide, by
        rintro ⟨k, hk⟩
        have h3 : (3 : Int) = 2 ^ k := hk
        rcases k with _ | _ | k
        · norm_num at h3
        · norm_num at h3
        · rw [pow_succ, pow_succ] at h3
          have : (0 : Int) < 2 ^ k := by positivity
          omega⟩),
    (handler_order_check growExact exHeap ⟨2, exA⟩ ⟨2, exB⟩ (by decide)).2
      ⟨rfl, 1, rfl⟩⟩

/-- C4 (counterexample): with declared order two for both matrices and data
`[[7]]` and `[[1,2],[3,4]]`, the handler calls the engine (with no fuel the call
is what runs out, with fuel it answers `[[7]]`), although the first matrix is not
square of order two and the two have different numbers of rows. -/
theorem handler_passes_unchecked_data :
    multiplicationHandler growExact 0 mismatchRequest = .outOfFuel ∧
    multiplicationHandler growExact 1 mismatchRequest = .ok (.result [[7]]) ∧
    ¬ IsSquare mismatchRequest.heap [⟨0, 0, 1, 1⟩] 2 ∧
    ([⟨0, 0, 1, 1⟩] : Matrix).length ≠ ([⟨1, 0, 2, 2⟩, ⟨2, 0, 2, 2⟩] : Matrix).length := by
  decide

/-- C4 (amended): whenever the handler does not answer with an error, the request
carries two matrices whose declared orders are equal and pass `isPowerOfTwo`, and
it is their data, uninspected, that goes to `multiplyStrassen`; if the data of
both are square of the declared order and that order is a positive `int64`, the
pair satisfies the precondition of the engine: both square of one order, a
positive power of two. -/
theorem handler_engine_arguments (grow : Nat → Nat → Nat) (fuel : Nat) (r : Request)
    (hcall : ∀ msg status, multiplicationHandler grow fuel r ≠ .ok (.httpError msg status)) :
    ∃ a b, r.body = some [a, b] ∧ a.Order = b.Order ∧ isPowerOfTwo a.Order = true ∧
      multiplicationHandler grow fuel r
        = (multiplyStrassen grow fuel r.heap a.Matrix b.Matrix >>=
            fun p => pure (Response.result (matVal p.2 p.1))) ∧
      ∀ n : Nat, a.Order = n → 0 < n → InInt64 a.Order →
        IsSquare r.heap a.Matrix n → IsSquare r.heap b.Matrix n →
        ∃ k, n = 2 ^ k ∧ IsSquare r.heap a.Matrix (2 ^ k) ∧ IsSquare r.heap b.Matrix (2 ^ k) := by
  obtain ⟨method, body, heap⟩ := r
  by_cases hm : method = "POST"
  · subst hm
    match body, hcall with
    | none, hcall =>
      exact absurd (by simp [multiplicationHandler]) (hcall "Invalid request body" 400)
    | some [], hcall =>
      exact absurd (by simp [multiplicationHandler]) (hcall "Two matrices required" 400)
    | some [_], hcall =>
      exact absurd (by simp [multiplicationHandler]) (hcall "Two matrices required" 400)
    | some (_ :: _ :: _ :: _), hcall =>
      exact absurd (by simp [multiplicationHandler]) (hcall "Two matrices required" 400)
    | some [a, b], hcall =>
      by_cases hcond : (decide (a.Order ≠ b.Order) || !isPowerOfTwo a.Order) = true
      · exact absurd (by simp only [multiplicationHandler, ne_eq, not_true_eq_false,
          if_false, hcond, if_true])
          (hcall "Matrix dimensions do not match for multiplication" 400)
      · have hcond' : (decide (a.Order ≠ b.Order) || !isPowerOfTwo a.Order) = false := by
          simpa using hcond
        have he : a.Order = b.Order := by
          by_contra hne
          exact hcond (by simp [hne])
        have hp : isPowerOfTwo a.Order = true := by
          cases hq : isPowerOfTwo a.Order with
          | true => rfl
          | false => exact absurd (by simp [hq]) hcond
        refine ⟨a, b, rfl, he, hp, ?_, ?_⟩
        · simp only [multiplicationHandler, ne_eq, not_true_eq_false, if_false, hcond']
          rfl
        · intro n hn h0 hr sA sB
          have hpos : (0 : Int) < a.Order := by rw [hn]; exact_mod_cast h0
          obtain ⟨k, hk⟩ := (isPowerOfTwo_pos hpos hr).1 hp
          have hnk : n = 2 ^ k := by
            have : (n : Int) = ((2 ^ k : Nat) : Int) := by rw [← hn, hk]; push_cast; rfl
            exact_mod_cast this
          exact ⟨k, hnk, hnk ▸ sA, hnk ▸ sB⟩
  · exact absurd (by simp [multiplicationHandler, hm]) (hcall "Invalid request method" 405)

/-- Witness of C4 (amended): the request declaring order two for `exA` and `exB`
is not answered with an error. -/
theorem handler_engine_arguments_witness :
    (∀ msg status,
      multiplicationHandler growExact 2 exRequest ≠ .ok (.httpError msg status)) ∧
    ∃ a b, exRequest.body = some [a, b] ∧ a.Order = b.Order ∧ isPowerOfTwo a.Order = true ∧
      multiplicationHandler growExact 2 exRequest
        = (multiplyStrassen growExact 2 exRequest.heap a.Matrix b.Matrix >>=
            fun p => pure (Response.result (matVal p.2 p.1))) ∧
      ∀ n : Nat, a.Order = n → 0 < n → InInt64 a.Order →
        IsSquare exRequest.heap a.Matrix n → IsSquare exRequest.heap b.Matrix n →
        ∃ k, n = 2 ^ k ∧ IsSquare exRequest.heap a.Matrix (2 ^ k) ∧
          IsSquare exRequest.heap b.Matrix (2 ^ k) :=
  have hne : ∀ msg status,
      multiplicationHandler growExact 2 exRequest ≠ .ok (.httpError msg status) := by
    intro msg status
    have e : multiplicationHandler growExact 2 exRequest
        = .ok (.result [[19, 22], [43, 50]]) := by decide
    rw [e]
    intro hc
    cases hc
  ⟨hne, handler_engine_arguments growExact 2 exRequest hne⟩

/-- C5: for a square matrix `M` of even order `n`, `combineMat` applied to the four
quadrants that `splitMat M (n / 2)` returns yields a matrix with the values of
`M`, row for row and element for element. -/
theorem combineMat_splitMat (grow : Nat → Nat → Nat) (h : Heap) (M : Matrix) (n : Nat)
    (hM : IsSquare h M n) (hn : n % 2 = 0) :
    ∃ A11 A12 A21 A22 C h', splitMat M (n / 2) = .ok (A11, A12, A21, A22) ∧
      combineMat grow h A11 A12 A21 A22 = .ok (C, h') ∧ matVal h' C = matVal h M := by
  have h2 : n = 2 * (n / 2) := by omega
  rw [h2] at hM
  obtain ⟨A11, A12, A21, A22, e1, e2⟩ := combine_split_eq grow hM
  exact ⟨A11, A12, A21, A22, M, h, e1, e2, rfl⟩

/-- Witness of C5 on `[[1,2],[3,4]]`. -/
theorem combineMat_splitMat_witness :
    IsSquare exHeap exA 2 ∧ 2 % 2 = 0 ∧
    ∃ A11 A12 A21 A22 C h', splitMat exA (2 / 2) = .ok (A11, A12, A21, A22) ∧
      combineMat growExact exHeap A11 A12 A21 A22 = .ok (C, h') ∧
      matVal h' C = matVal exHeap exA :=
  ⟨by decide, by decide, combineMat_splitMat growExact exHeap exA 2 (by decide) (by decide)⟩

/-- C6: for a square matrix `M` of even order `n`, `splitMat M (n / 2)` returns four
square matrices of order `n / 2` with `A11[i][j] = M[i][j]`,
`A12[i][j] = M[i][j + n/2]`, `A21[i][j] = M[i + n/2][j]` and
`A22[i][j] = M[i + n/2][j + n/2]`. -/
theorem splitMat_quadrants (h : Heap) (M : Matrix) (n : Nat)
    (hM : IsSquare h M n) (hn : n % 2 = 0) :
    ∃ A11 A12 A21 A22, splitMat M (n / 2) = .ok (A11, A12, A21, A22) ∧
      IsSquare h A11 (n / 2) ∧ IsSquare h A12 (n / 2) ∧
      IsSquare h A21 (n / 2) ∧ IsSquare h A22 (n / 2) ∧
      ∀ i j, i < n / 2 → j < n / 2 →
        ent h A11 i j = ent h M i j ∧ ent h A12 i j = ent h M i (j + n / 2) ∧
        ent h A21 i j = ent h M (i + n / 2) j ∧
        ent h A22 i j = ent h M (i + n / 2) (j + n / 2) := by
  have h2 : n = 2 * (n / 2) := by omega
  rw [h2] at hM
  exact split_spec hM

/-- Witness of C6 on `[[1,2],[3,4]]`. -/
theorem splitMat_quadrants_witness :
    IsSquare exHeap exA 2 ∧ 2 % 2 = 0 ∧
    ∃ A11 A12 A21 A22, splitMat exA (2 / 2) = .ok (A11, A12, A21, A22) ∧
      IsSquare exHeap A11 (2 / 2) ∧ IsSquare exHeap A12 (2 / 2) ∧
      IsSquare exHeap A21 (2 / 2) ∧ IsSquare exHeap A22 (2 / 2) ∧
      ∀ i j, i < 2 / 2 → j < 2 / 2 →
        ent exHeap A11 i j = ent exHeap exA i j ∧
        ent exHeap A12 i j = ent exHeap exA i (j + 2 / 2) ∧
        ent exHeap A21 i j = ent exHeap exA (i + 2 / 2) j ∧
        ent exHeap A22 i j = ent exHeap exA (i + 2 / 2) (j + 2 / 2) :=
  ⟨by decide, by decide, splitMat_quadrants exHeap exA 2 (by decide) (by decide)⟩

/-- C7 (counterexample): `cxA11` is the top-left quadrant that `splitMat` returns
for `[[1,2],[3,4]]`, a row of length one and capacity two.  Combining it, as both
left quadrants, with `[[5]]` and `[[6]]` appends twice into the same array: row 0
of the result reads `[1, 6]`, not the concatenation `[1, 5]` of `C11[0]` and
`C12[0]`. -/
theorem combineMat_shared_row :
    (∃ A12 A21 A22, splitMat cxM 1 = .ok (cxA11, A12, A21, A22)) ∧
    IsSquare cxHeap cxA11 1 ∧ IsSquare cxHeap cxP 1 ∧ IsSquare cxHeap cxQ 1 ∧
    ∃ C h', combineMat growExact cxHeap cxA11 cxP cxA11 cxQ = .ok (C, h') ∧
      rowVal h' (C.getD 0 nilSlice) = [1, 6] ∧
      rowVal cxHeap (cxA11.getD 0 nilSlice) ++ rowVal cxHeap (cxP.getD 0 nilSlice) = [1, 5] ∧
      rowVal h' (cxA11.getD 0 nilSlice) ++ rowVal h' (cxP.getD 0 nilSlice) = [1, 5] :=
  ⟨⟨[⟨0, 1, 1, 1⟩], [⟨1, 0, 1, 2⟩], [⟨1, 1, 1, 1⟩], by decide⟩, by decide, by decide, by decide,
    [⟨0, 0, 2, 2⟩, ⟨0, 0, 2, 2⟩], [[1, 6], [3, 4], [5], [6]], by decide, by decide, by decide,
    by decide⟩

/-- C7 (amended): for four square matrices of the same order `m` in which no row
of `C11` and of `C21` has capacity beyond its length, `combineMat` returns a
matrix with `2 * m` rows of `2 * m` elements in which row `i < m` is the
concatenation of `C11[i]` and `C12[i]` and row `i + m` the concatenation of
`C21[i]` and `C22[i]`. -/
theorem combineMat_concat (grow : Nat → Nat → Nat) (h : Heap) (C11 C12 C21 C22 : Matrix)
    (m : Nat) (h11 : IsSquare h C11 m) (h12 : IsSquare h C12 m) (h21 : IsSquare h C21 m)
    (h22 : IsSquare h C22 m) (t11 : Tight C11) (t21 : Tight C21) :
    ∃ C h', combineMat grow h C11 C12 C21 C22 = .ok (C, h') ∧ IsSquare h' C (2 * m) ∧
      ∀ i, i < m →
        rowVal h' (C.getD i nilSlice)
          = rowVal h (C11.getD i nilSlice) ++ rowVal h (C12.getD i nilSlice) ∧
        rowVal h' (C.getD (i + m) nilSlice)
          = rowVal h (C21.getD i nilSlice) ++ rowVal h (C22.getD i nilSlice) := by
  obtain ⟨C, h', e, _, sq, hv⟩ := combine_spec grow h11 h12 h21 h22 t11 t21
  exact ⟨C, h', e, sq, hv⟩

/-- Witness of C7 (amended): combining `[[5]]`, `[[6]]`, `[[6]]`, `[[5]]`. -/
theorem combineMat_concat_witness :
    (IsSquare cxHeap cxP 1 ∧ IsSquare cxHeap cxQ 1 ∧ Tight cxP ∧ Tight cxQ) ∧
    ∃ C h', combineMat growExact cxHeap cxP cxQ cxQ cxP = .ok (C, h') ∧
      IsSquare h' C (2 * 1) ∧
      ∀ i, i < 1 →
        rowVal h' (C.getD i nilSlice)
          = rowVal cxHeap (cxP.getD i nilSlice) ++ rowVal cxHeap (cxQ.getD i nilSlice) ∧
        rowVal h' (C.getD (i + 1) nilSlice)
          = rowVal cxHeap (cxQ.getD i nilSlice) ++ rowVal cxHeap (cxP.getD i nilSlice) :=
  ⟨⟨by decide, by decide, by decide, by decide⟩,
    combineMat_concat growExact cxHeap cxP cxQ cxQ cxP 1 (by decide) (by decide) (by decide)
      (by decide) (by decide) (by decide)⟩

/-- C8: for square matrices `A` and `B` of the same order `n`, `addMat` returns, in
an extension of the heap, a square matrix `C` of order `n` with
`C[i][j] = A[i][j] + B[i][j]` in wrapping 64-bit arithmetic. -/
theorem addMat_entries (h : Heap) (A B : Matrix) (n : Nat)
    (hA : IsSquare h A n) (hB : IsSquare h B n) :
    ∃ C h', addMat h A B = .ok (C, h') ∧ h <+: h' ∧ IsSquare h' C n ∧
      ∀ i j, i < n → j < n → ent h' C i j = wrap64 (ent h A i j + ent h B i j) := by
  obtain ⟨C, h', e, hp, sq, _, hv⟩ := elem_spec (fun a b => wrap64 (a + b)) hA hB
  exact ⟨C, h', e, hp, sq, hv⟩

/-- Witness of C8: `[[1,2],[3,4]] + [[5,6],[7,8]]`. -/
theorem addMat_entries_witness :
    (IsSquare exHeap exA 2 ∧ IsSquare exHeap exB 2) ∧
    (∃ C h', addMat exHeap exA exB = .ok (C, h') ∧ exHeap <+: h' ∧ IsSquare h' C 2 ∧
      ∀ i j, i < 2 → j < 2 →
        ent h' C i j = wrap64 (ent exHeap exA i j + ent exHeap exB i j)) ∧
    resultVal (addMat exHeap exA exB) = some [[6, 8], [10, 12]] :=
  ⟨⟨by decide, by decide⟩, addMat_entries exHeap exA exB 2 (by decide) (by decide), by decide⟩

/-- C9: for square matrices `A` and `B` of the same order `n`, `subMat` returns, in
an extension of the heap, a square matrix `C` of order `n` with
`C[i][j] = A[i][j] - B[i][j]` in wrapping 64-bit arithmetic. -/
theorem subMat_entries (h : Heap) (A B : Matrix) (n : Nat)
    (hA : IsSquare h A n) (hB : IsSquare h B n) :
    ∃ C h', subMat h A B = .ok (C, h') ∧ h <+: h' ∧ IsSquare h' C n ∧
      ∀ i j, i < n → j < n → ent h' C i j = wrap64 (ent h A i j - ent h B i j) := by
  obtain ⟨C, h', e, hp, sq, _, hv⟩ := elem_spec (fun a b => wrap64 (a - b)) hA hB
  exact ⟨C, h', e, hp, sq, hv⟩

/-- Witness of C9: `[[1,2],[3,4]] - [[5,6],[7,8]]`. -/
theorem subMat_entries_witness :
    (IsSquare exHeap exA 2 ∧ IsSquare exHeap exB 2) ∧
    (∃ C h', subMat exHeap exA exB = .ok (C, h') ∧ exHeap <+: h' ∧ IsSquare h' C 2 ∧
      ∀ i j, i < 2 → j < 2 →
        ent h' C i j = wrap64 (ent exHeap exA i j - ent exHeap exB i j)) ∧
    resultVal (subMat exHeap exA exB) = some [[-4, -4], [-4, -4]] :=
  ⟨⟨by decide, by decide⟩, subMat_entries exHeap exA exB 2 (by decide) (by decide), by decide⟩

theorem mulF_identity_right (n : Nat) (f : Nat → Nat → Int) {i j : Nat} (hj : j < n) :
    mulF n f (fun a b => if a = b then 1 else 0) i j = wrap64 (f i j) := by
  simp only [mulF, mul_ite, mul_one, mul_zero]
  rw [Finset.sum_ite_eq' (Finset.range n) j, if_pos (Finset.mem_range.2 hj)]

theorem mulF_identity_left (n : Nat) (f : Nat → Nat → Int) {i j : Nat} (hi : i < n) :
    mulF n (fun a b => if a = b then 1 else 0) f i j = wrap64 (f i j) := by
  simp only [mulF, ite_mul, one_mul, zero_mul]
  rw [Finset.sum_ite_eq (Finset.range n) i, if_pos (Finset.mem_range.2 hi)]

/-- C10: for an order `n = 2 ^ k`, a square matrix `A` of order `n` with `int64`
entries and the identity `I` of order `n`, both `multiplyStrassen(A, I)` and
`multiplyStrassen(I, A)` return (given fuel beyond `k`) a square matrix of order
`n` with the elements of `A`. -/
theorem multiplyStrassen_identity (grow : Nat → Nat → Nat) (k fuel : Nat) (h : Heap)
    (A I : Matrix) (hf : k < fuel) (hA : IsSquare h A (2 ^ k)) (hI : IsSquare h I (2 ^ k))
    (hid : IsIdentity h I (2 ^ k)) (hr : EntriesInt64 h A (2 ^ k)) :
    (∃ C h', multiplyStrassen grow fuel h A I = .ok (C, h') ∧ IsSquare h' C (2 ^ k) ∧
      ∀ i j, i < 2 ^ k → j < 2 ^ k → ent h' C i j = ent h A i j) ∧
    (∃ C h', multiplyStrassen grow fuel h I A = .ok (C, h') ∧ IsSquare h' C (2 ^ k) ∧
      ∀ i j, i < 2 ^ k → j < 2 ^ k → ent h' C i j = ent h A i j) := by
  have sI : Shows h I (2 ^ k) (fun a b => if a = b then 1 else 0) :=
    ⟨hI, fun i j hi hj => hid i hi j hj⟩
  constructor
  · obtain ⟨C, h', e, _, sq, hv⟩ := strassen_shows grow k fuel h A I _ _ hf (Shows_self hA) sI
    refine ⟨C, h', e, sq, fun i j hi hj => ?_⟩
    rw [hv i j hi hj, mulF_identity_right _ _ hj]
    exact wrap64_of_inRange (hr i hi j hj)
  · obtain ⟨C, h', e, _, sq, hv⟩ := strassen_shows grow k fuel h I A _ _ hf sI (Shows_self hA)
    refine ⟨C, h', e, sq, fun i j hi hj => ?_⟩
    rw [hv i j hi hj, mulF_identity_left _ _ hi]
    exact wrap64_of_inRange (hr i hi j hj)

/-- Witness of C10: `[[1,2],[3,4]]` and the identity of order two. -/
theorem multiplyStrassen_identity_witness :
    (IsSquare exHeap exA (2 ^ 1) ∧ IsSquare exHeap exI (2 ^ 1) ∧
      IsIdentity exHeap exI (2 ^ 1) ∧ EntriesInt64 exHeap exA (2 ^ 1)) ∧
    ((∃ C h', multiplyStrassen growExact 2 exHeap exA exI = .ok (C, h') ∧
        IsSquare h' C (2 ^ 1) ∧
        ∀ i j, i < 2 ^ 1 → j < 2 ^ 1 → ent h' C i j = ent exHeap exA i j) ∧
      (∃ C h', multiplyStrassen growExact 2 exHeap exI exA = .ok (C, h') ∧
        IsSquare h' C (2 ^ 1) ∧
        ∀ i j, i < 2 ^ 1 → j < 2 ^ 1 → ent h' C i j = ent exHeap exA i j)) ∧
    resultVal (multiplyStrassen growExact 2 exHeap exA exI) = some [[1, 2], [3, 4]] ∧
    resultVal (multiplyStrassen growExact 2 exHeap exI exA) = some [[1, 2], [3, 4]] :=
  ⟨⟨by decide, by decide, by decide, by decide⟩,
    multiplyStrassen_identity growExact 1 2 exHeap exA exI (by decide) (by decide) (by decide)
      (by decide) (by decide),
    by decide, by decide⟩

/-! ### The base case, empty arguments and too little fuel -/

theorem exactDot_eq (f g : Nat → Int) (n : Nat) :
    exactDot f g n = ∑ l in Finset.range n, f l * g l := by
  induction n with
  | zero => rfl
  | succ n ih => rw [exactDot, ih, Finset.sum_range_succ]

/-- The base case of the engine: on two matrices of order one every call with
fuel returns the one-by-one matrix of the wrapped product, in a new array. -/
theorem strassen_base {h : Heap} {A B : Matrix} (grow : Nat → Nat → Nat)
    (hA : IsSquare h A 1) (hB : IsSquare h B 1) (fuel : Nat) :
    multiplyStrassen grow (fuel + 1) h A B
      = .ok ([(alloc h [wrap64 (ent h A 0 0 * ent h B 0 0)]).1],
          (alloc h [wrap64 (ent h A 0 0 * ent h B 0 0)]).2) := by
  have hlA : 0 < A.length := by rw [hA.1]; exact Nat.one_pos
  have hlB : 0 < B.length := by rw [hB.1]; exact Nat.one_pos
  have rA := hA.2 _ (getD_mem hlA)
  have rB := hB.2 _ (getD_mem hlB)
  simp only [multiplyStrassen, if_pos hA.1, rowAt_ok hlA, rowAt_ok hlB, Res.ok_bind,
    index_ok rA.1 (show 0 < _ by rw [rA.2]; exact Nat.one_pos),
    index_ok rB.1 (show 0 < _ by rw [rB.2]; exact Nat.one_pos), Res.pure_eq]
  rfl

theorem splitMat_zero (A : Matrix) : splitMat A 0 = .ok ([], [], [], []) := rfl

/-- The engine on an empty first argument runs out of every amount of fuel. -/
theorem strassen_empty (grow : Nat → Nat → Nat) :
    ∀ (fuel : Nat) (h : Heap) (B : Matrix), multiplyStrassen grow fuel h [] B = .outOfFuel := by
  intro fuel
  induction fuel with
  | zero => intro h B; rfl
  | succ fuel ih =>
    intro h B
    have hlen : ¬ ([] : Matrix).length = 1 := by decide
    rw [multiplyStrassen, if_neg hlen]
    have hdiv : ([] : Matrix).length / 2 = 0 := rfl
    simp only [hdiv]
    refine (Res.bind_of_eq_ok (splitMat_zero []) _).trans ?_
    refine (Res.bind_of_eq_ok (splitMat_zero B) _).trans ?_
    refine (Res.bind_of_eq_ok (show addMat h [] [] = .ok ([], h) from rfl) _).trans ?_
    refine (Res.bind_of_eq_ok (show addMat h [] [] = .ok ([], h) from rfl) _).trans ?_
    show (multiplyStrassen grow fuel h [] [] >>= _) = _
    rw [ih]
    rfl

/-- With fuel up to `k` the engine on square matrices of order `2 ^ k` runs out
of fuel: the recursion is more than `k` calls deep. -/
theorem strassen_outOfFuel (grow : Nat → Nat → Nat) :
    ∀ (k fuel : Nat) (h : Heap) (A B : Matrix), fuel ≤ k →
      IsSquare h A (2 ^ k) → IsSquare h B (2 ^ k) →
      multiplyStrassen grow fuel h A B = .outOfFuel := by
  intro k
  induction k with
  | zero =>
    intro fuel h A B hf _ _
    obtain rfl : fuel = 0 := by omega
    rfl
  | succ k ih =>
    intro fuel h0 A B hf hA hB
    cases fuel with
    | zero => rfl
    | succ fuel =>
      have hpow : 2 ^ (k + 1) = 2 * 2 ^ k := by rw [pow_succ, mul_comm]
      rw [hpow] at hA hB
      have hpos : 0 < 2 ^ k := Nat.pos_pow_of_pos k (by decide)
      have hlen : ¬ A.length = 1 := by rw [hA.1]; omega
      have hdiv : A.length / 2 = 2 ^ k := by rw [hA.1]; omega
      obtain ⟨A11, A12, A21, A22, eA, sA11, sA12, sA21, sA22⟩ := split_shows (Shows_self hA)
      obtain ⟨B11, B12, B21, B22, eB, sB11, sB12, sB21, sB22⟩ := split_shows (Shows_self hB)
      obtain ⟨S1, h1, e1, p1, tS1, sS1⟩ := add_shows sA11 sA22
      obtain ⟨T1, h2, e2, p2, tT1, sT1⟩ := add_shows (Shows_ext p1 sB11) (Shows_ext p1 sB22)
      rw [multiplyStrassen, if_neg hlen]
      simp only [hdiv]
      refine (Res.bind_of_eq_ok eA _).trans ?_
      refine (Res.bind_of_eq_ok eB _).trans ?_
      refine (Res.bind_of_eq_ok e1 _).trans ?_
      refine (Res.bind_of_eq_ok e2 _).trans ?_
      show (multiplyStrassen grow fuel h2 S1 T1 >>= _) = _
      rw [ih fuel h2 S1 T1 (by omega) (Shows_ext p2 sS1).1 sT1.1]
      rfl

/-! ### The traced engine -/

theorem Res.map_bind_congr {α β γ : Type} (f : β → γ) (x : Res α) (F : α → Res β)
    (G : α → Res γ) (hFG : ∀ a, Res.map f (F a) = G a) :
    Res.map f (x >>= F) = (x >>= G) := by
  cases x with
  | ok a => exact hFG a
  | panic => rfl
  | outOfFuel => rfl

theorem Res.map_bind_trace {α τ β γ : Type} (f : β → γ) (y : Res (α × τ)) (z : Res α)
    (F : α × τ → Res β) (G : α → Res γ) (hy : Res.map Prod.fst y = z)
    (hFG : ∀ a t, Res.map f (F (a, t)) = G a) :
    Res.map f (y >>= F) = (z >>= G) := by
  subst hy
  cases y with
  | ok a => exact hFG a.1 a.2
  | panic => rfl
  | outOfFuel => rfl

/-- Forgetting the call tree of the traced run gives the run of
`multiplyStrassen`, on every input. -/
theorem trace_erase (grow : Nat → Nat → Nat) :
    ∀ (fuel : Nat) (h : Heap) (A B : Matrix),
      Res.map Prod.fst (multiplyStrassenTrace grow fuel h A B)
        = multiplyStrassen grow fuel h A B := by
  intro fuel
  induction fuel with
  | zero => intro h A B; rfl
  | succ fuel ih =>
    intro h A B
    rw [multiplyStrassenTrace, multiplyStrassen]
    by_cases hlen : A.length = 1
    · rw [if_pos hlen, if_pos hlen]
      refine Res.map_bind_congr _ _ _ _ (fun ra => ?_)
      refine Res.map_bind_congr _ _ _ _ (fun a => ?_)
      refine Res.map_bind_congr _ _ _ _ (fun rb => ?_)
      refine Res.map_bind_congr _ _ _ _ (fun b => ?_)
      rfl
    · rw [if_neg hlen, if_neg hlen]
      refine Res.map_bind_congr _ _ _ _ (fun x => ?_)
      obtain ⟨A11, A12, A21, A22⟩ := x
      refine Res.map_bind_congr _ _ _ _ (fun x => ?_)
      obtain ⟨B11, B12, B21, B22⟩ := x
      refine Res.map_bind_congr _ _ _ _ (fun x => ?_)
      obtain ⟨S1, h⟩ := x
      refine Res.map_bind_congr _ _ _ _ (fun x => ?_)
      obtain ⟨T1, h⟩ := x
      refine Res.map_bind_trace _ _ _ _ _ (ih _ _ _) (fun x t => ?_)
      obtain ⟨M1, h⟩ := x
      refine Res.map_bind_congr _ _ _ _ (fun x => ?_)
      obtain ⟨S2, h⟩ := x
      refine Res.map_bind_trace _ _ _ _ _ (ih _ _ _) (fun x t => ?_)
      obtain ⟨M2, h⟩ := x
      refine Res.map_bind_congr _ _ _ _ (fun x => ?_)
      obtain ⟨T3, h⟩ := x
      refine Res.map_bind_trace _ _ _ _ _ (ih _ _ _) (fun x t => ?_)
      obtain ⟨M3, h⟩ := x
      refine Res.map_bind_congr _ _ _ _ (fun x => ?_)
      obtain ⟨T4, h⟩ := x
      refine Res.map_bind_trace _ _ _ _ _ (ih _ _ _) (fun x t => ?_)
      obtain ⟨M4, h⟩ := x
      refine Res.map_bind_congr _ _ _ _ (fun x => ?_)
      obtain ⟨S5, h⟩ := x
      refine Res.map_bind_trace _ _ _ _ _ (ih _ _ _) (fun x t => ?_)
      obtain ⟨M5, h⟩ := x
      refine Res.map_bind_congr _ _ _ _ (fun x => ?_)
      obtain ⟨S6, h⟩ := x
      refine Res.map_bind_congr _ _ _ _ (fun x => ?_)
      obtain ⟨T6, h⟩ := x
      refine Res.map_bind_trace _ _ _ _ _ (ih _ _ _) (fun x t => ?_)
      obtain ⟨M6, h⟩ := x
      refine Res.map_bind_congr _ _ _ _ (fun x => ?_)
      obtain ⟨S7, h⟩ := x
      refine Res.map_bind_congr _ _ _ _ (fun x => ?_)
      obtain ⟨T7, h⟩ := x
      refine Res.map_bind_trace _ _ _ _ _ (ih _ _ _) (fun x t => ?_)
      obtain ⟨M7, h⟩ := x
      refine Res.map_bind_congr _ _ _ _ (fun x => ?_)
      obtain ⟨X1, h⟩ := x
      refine Res.map_bind_congr _ _ _ _ (fun x => ?_)
      obtain ⟨X2, h⟩ := x
      refine Res.map_bind_congr _ _ _ _ (fun x => ?_)
      obtain ⟨C11, h⟩ := x
      refine Res.map_bind_congr _ _ _ _ (fun x => ?_)
      obtain ⟨C12, h⟩ := x
      refine Res.map_bind_congr _ _ _ _ (fun x => ?_)
      obtain ⟨C21, h⟩ := x
      refine Res.map_bind_congr _ _ _ _ (fun x => ?_)
      obtain ⟨Y1, h⟩ := x
      refine Res.map_bind_congr _ _ _ _ (fun x => ?_)
      obtain ⟨Y2, h⟩ := x
      refine Res.map_bind_congr _ _ _ _ (fun x => ?_)
      obtain ⟨C22, h⟩ := x
      show Res.map Prod.fst (combineMat grow h C11 C12 C21 C22 >>= _)
        = combineMat grow h C11 C12 C21 C22
      cases combineMat grow h C11 C12 C21 C22 <;> rfl

theorem depthList_replicate (t : CallTree) (n : Nat) :
    CallTree.depthList (List.replicate (n + 1) t) = t.depth := by
  induction n with
  | zero => simp [List.replicate, CallTree.depthList]
  | succ n ih =>
    rw [List.replicate_succ, CallTree.depthList, ih]
    exact max_self _

theorem leavesList_replicate (t : CallTree) (n : Nat) :
    CallTree.leavesList (List.replicate n t) = n * t.leaves := by
  induction n with
  | zero => simp [CallTree.leavesList]
  | succ n ih =>
    rw [List.replicate_succ, CallTree.leavesList, ih]
    ring

theorem sevenfoldList_replicate (t : CallTree) (ht : t.sevenfold = true) (n : Nat) :
    CallTree.sevenfoldList (List.replicate n t) = true := by
  induction n with
  | zero => rfl
  | succ n ih => rw [List.replicate_succ, CallTree.sevenfoldList, ht, ih]; rfl

theorem halvingList_replicate (m : Nat) (t : CallTree) (ho : 2 * t.order = m)
    (ht : t.halving = true) (n : Nat) :
    CallTree.halvingList m (List.replicate n t) = true := by
  induction n with
  | zero => rfl
  | succ n ih =>
    rw [List.replicate_succ, CallTree.halvingList, ht, ih, ho]
    simp

theorem fullTree_order (k : Nat) : (fullTree k).order = 2 ^ k := by
  cases k <;> rfl

theorem fullTree_depth (k : Nat) : (fullTree k).depth = k := by
  induction k with
  | zero => rfl
  | succ k ih =>
    rw [fullTree, CallTree.depth, depthList_replicate, ih]
    omega

theorem fullTree_leaves (k : Nat) : (fullTree k).leaves = 7 ^ k := by
  induction k with
  | zero => rfl
  | succ k ih =>
    rw [fullTree, CallTree.leaves, leavesList_replicate, ih, pow_succ]
    ring

theorem fullTree_sevenfold (k : Nat) : (fullTree k).sevenfold = true := by
  induction k with
  | zero => rfl
  | succ k ih =>
    rw [fullTree, CallTree.sevenfold, sevenfoldList_replicate _ ih]
    simp

theorem fullTree_halving (k : Nat) : (fullTree k).halving = true := by
  induction k with
  | zero => rfl
  | succ k ih =>
    rw [fullTree, CallTree.halving]
    exact halvingList_replicate _ _ (by rw [fullTree_order, pow_succ, mul_comm]) ih 7

/-- The traced engine on square matrices of order `2 ^ k`: with fuel beyond `k` it
returns a square matrix in an extension of the heap, and its call tree is the
full tree of height `k`. -/
theorem strassenTrace_full (grow : Nat → Nat → Nat) :
    ∀ (k fuel : Nat) (h : Heap) (A B : Matrix), k < fuel →
      IsSquare h A (2 ^ k) → IsSquare h B (2 ^ k) →
      ∃ C h', multiplyStrassenTrace grow fuel h A B = .ok ((C, h'), fullTree k) ∧
        h <+: h' ∧ IsSquare h' C (2 ^ k) := by
  intro k
  induction k with
  | zero =>
    intro fuel h A B hf hA hB
    obtain ⟨fuel, rfl⟩ : ∃ f', fuel = f' + 1 := ⟨fuel - 1, by omega⟩
    simp only [pow_zero] at hA hB
    have hlA : 0 < A.length := by rw [hA.1]; exact Nat.one_pos
    have hlB : 0 < B.length := by rw [hB.1]; exact Nat.one_pos
    have rA := hA.2 _ (getD_mem hlA)
    have rB := hB.2 _ (getD_mem hlB)
    have ha := alloc_spec h [wrap64 (ent h A 0 0 * ent h B 0 0)]
    have es : multiplyStrassenTrace grow (fuel + 1) h A B
        = .ok (([(alloc h [wrap64 (ent h A 0 0 * ent h B 0 0)]).1],
            (alloc h [wrap64 (ent h A 0 0 * ent h B 0 0)]).2), .base) := by
      simp only [multiplyStrassenTrace, if_pos hA.1, rowAt_ok hlA, rowAt_ok hlB, Res.ok_bind,
        index_ok rA.1 (show 0 < _ by rw [rA.2]; exact Nat.one_pos),
        index_ok rB.1 (show 0 < _ by rw [rB.2]; exact Nat.one_pos), Res.pure_eq]
      rfl
    generalize alloc h [wrap64 (ent h A 0 0 * ent h B 0 0)] = p at ha es
    obtain ⟨s, h1⟩ := p
    obtain ⟨ap, aok, alen, acap, aval⟩ := ha
    simp only [List.length_singleton] at alen acap
    refine ⟨[s], h1, es, ap, rfl, ?_⟩
    intro t ht
    rw [List.mem_singleton] at ht
    subst ht
    exact ⟨aok, alen⟩
  | succ k ih =>
    intro fuel h0 A B hf hA hB
    obtain ⟨fuel, rfl⟩ : ∃ f', fuel = f' + 1 := ⟨fuel - 1, by omega⟩
    have hk : k < fuel := by omega
    have hpow : 2 ^ (k + 1) = 2 * 2 ^ k := by rw [pow_succ, mul_comm]
    have hAl : A.length = 2 ^ (k + 1) := hA.1
    rw [hpow] at hA hB
    have hpos : 0 < 2 ^ k := Nat.pos_pow_of_pos k (by decide)
    have hlen : ¬ A.length = 1 := by rw [hA.1]; omega
    have hdiv : A.length / 2 = 2 ^ k := by rw [hA.1]; omega
    obtain ⟨A11, A12, A21, A22, eA, sA11, sA12, sA21, sA22⟩ := split_shows (Shows_self hA)
    obtain ⟨B11, B12, B21, B22, eB, sB11, sB12, sB21, sB22⟩ := split_shows (Shows_self hB)
    obtain ⟨S1, h1, e1, p1, tS1, sS1⟩ := add_shows sA11 sA22
    obtain ⟨T1, h2, e2, p2, tT1, sT1⟩ := add_shows (Shows_ext p1 sB11) (Shows_ext p1 sB22)
    obtain ⟨M1, h3, e3, p3, qM1⟩ := ih fuel h2 S1 T1 hk (Shows_ext p2 sS1).1 sT1.1
    have sM1 := Shows_self qM1
    obtain ⟨S2, h4, e4, p4, tS2, sS2⟩ := add_shows (Shows_ext (p1.trans (p2.trans p3)) sA21) (Shows_ext (p1.trans (p2.trans p3)) sA22)
    obtain ⟨M2, h5, e5, p5, qM2⟩ := ih fuel h4 S2 B11 hk sS2.1 (Shows_ext (p1.trans (p2.trans (p3.trans p4))) sB11).1
    have sM2 := Shows_self qM2
    obtain ⟨T3, h6, e6, p6, tT3, sT3⟩ := sub_shows (Shows_ext (p1.trans (p2.trans (p3.trans (p4.trans p5)))) sB12) (Shows_ext (p1.trans (p2.trans (p3.trans (p4.trans p5)))) sB22)
    obtain ⟨M3, h7, e7, p7, qM3⟩ := ih fuel h6 A11 T3 hk (Shows_ext (p1.trans (p2.trans (p3.trans (p4.trans (p5.trans p6))))) sA11).1 sT3.1
    have sM3 := Shows_self qM3
    obtain ⟨T4, h8, e8, p8, tT4, sT4⟩ := sub_shows (Shows_ext (p1.trans (p2.trans (p3.trans (p4.trans (p5.trans (p6.trans p7)))))) sB21) (Shows_ext (p1.trans (p2.trans (p3.trans (p4.trans (p5.trans (p6.trans p7)))))) sB11)
    obtain ⟨M4, h9, e9, p9, qM4⟩ := ih fuel h8 A22 T4 hk (Shows_ext (p1.trans (p2.trans (p3.trans (p4.trans (p5.trans (p6.trans (p7.trans p8))))))) sA22).1 sT4.1
    have sM4 := Shows_self qM4
    obtain ⟨S5, h10, e10, p10, tS5, sS5⟩ := add_shows (Shows_ext (p1.trans (p2.trans (p3.trans (p4.trans (p5.trans (p6.trans (p7.trans (p8.trans p9)))))))) sA11) (Shows_ext (p1.trans (p2.trans (p3.trans (p4.trans (p5.trans (p6.trans (p7.trans (p8.trans p9)))))))) sA12)
    obtain ⟨M5, h11, e11, p11, qM5⟩ := ih fuel h10 S5 B22 hk sS5.1 (Shows_ext (p1.trans (p2.trans (p3.trans (p4.trans (p5.trans (p6.trans (p7.trans (p8.trans (p9.trans p10))))))))) sB22).1
    have sM5 := Shows_self qM5
    obtain ⟨S6, h12, e12, p12, tS6, sS6⟩ := sub_shows (Shows_ext (p1.trans (p2.trans (p3.trans (p4.trans (p5.trans (p6.trans (p7.trans (p8.trans (p9.trans (p10.trans p11)))))))))) sA21) (Shows_ext (p1.trans (p2.trans (p3.trans (p4.trans (p5.trans (p6.trans (p7.trans (p8.trans (p9.trans (p10.trans p11)))))))))) sA11)
    obtain ⟨T6, h13, e13, p13, tT6, sT6⟩ := add_shows (Shows_ext (p1.trans (p2.trans (p3.trans (p4.trans (p5.trans (p6.trans (p7.trans (p8.trans (p9.trans (p10.trans (p11.trans p12))))))))))) sB11) (Shows_ext (p1.trans (p2.trans (p3.trans (p4.trans (p5.trans (p6.trans (p7.trans (p8.trans (p9.trans (p10.trans (p11.trans p12))))))))))) sB12)
    obtain ⟨M6, h14, e14, p14, qM6⟩ := ih fuel h13 S6 T6 hk (Shows_ext p13 sS6).1 sT6.1
    have sM6 := Shows_self qM6
    obtain ⟨S7, h15, e15, p15, tS7, sS7⟩ := sub_shows (Shows_ext (p1.trans (p2.trans (p3.trans (p4.trans (p5.trans (p6.trans (p7.trans (p8.trans (p9.trans (p10.trans (p11.trans (p12.trans (p13.trans p14))))))))))))) sA12) (Shows_ext (p1.trans (p2.trans (p3.trans (p4.trans (p5.trans (p6.trans (p7.trans (p8.trans (p9.trans (p10.trans (p11.trans (p12.trans (p13.trans p14))))))))))))) sA22)
    obtain ⟨T7, h16, e16, p16, tT7, sT7⟩ := add_shows (Shows_ext (p1.trans (p2.trans (p3.trans (p4.trans (p5.trans (p6.trans (p7.trans (p8.trans (p9.trans (p10.trans (p11.trans (p12.trans (p13.trans (p14.trans p15)))))))))))))) sB21) (Shows_ext (p1.trans (p2.trans (p3.trans (p4.trans (p5.trans (p6.trans (p7.trans (p8.trans (p9.trans (p10.trans (p11.trans (p12.trans (p13.trans (p14.trans p15)))))))))))))) sB22)
    obtain ⟨M7, h17, e17, p17, qM7⟩ := ih fuel h16 S7 T7 hk (Shows_ext p16 sS7).1 sT7.1
    have sM7 := Shows_self qM7
    obtain ⟨X1, h18, e18, p18, tX1, sX1⟩ := add_shows (Shows_ext (p4.trans (p5.trans (p6.trans (p7.trans (p8.trans (p9.trans (p10.trans (p11.trans (p12.trans (p13.trans (p14.trans (p15.trans (p16.trans p17))))))))))))) sM1) (Shows_ext (p10.trans (p11.trans (p12.trans (p13.trans (p14.trans (p15.trans (p16.trans p17))))))) sM4)
    obtain ⟨X2, h19, e19, p19, tX2, sX2⟩ := sub_shows sX1 (Shows_ext (p12.trans (p13.trans (p14.trans (p15.trans (p16.trans (p17.trans p18)))))) sM5)
    obtain ⟨C11, h20, e20, p20, tC11, sC11⟩ := add_shows sX2 (Shows_ext (p18.trans p19) sM7)
    obtain ⟨C12, h21, e21, p21, tC12, sC12⟩ := add_shows (Shows_ext (p8.trans (p9.trans (p10.trans (p11.trans (p12.trans (p13.trans (p14.trans (p15.trans (p16.trans (p17.trans (p18.trans (p19.trans p20)))))))))))) sM3) (Shows_ext (p12.trans (p13.trans (p14.trans (p15.trans (p16.trans (p17.trans (p18.trans (p19.trans p20)))))))) sM5)
    obtain ⟨C21, h22, e22, p22, tC21, sC21⟩ := add_shows (Shows_ext (p6.trans (p7.trans (p8.trans (p9.trans (p10.trans (p11.trans (p12.trans (p13.trans (p14.trans (p15.trans (p16.trans (p17.trans (p18.trans (p19.trans (p20.trans p21))))))))))))))) sM2) (Shows_ext (p10.trans (p11.trans (p12.trans (p13.trans (p14.trans (p15.trans (p16.trans (p17.trans (p18.trans (p19.trans (p20.trans p21))))))))))) sM4)
    obtain ⟨Y1, h23, e23, p23, tY1, sY1⟩ := add_shows (Shows_ext (p4.trans (p5.trans (p6.trans (p7.trans (p8.trans (p9.trans (p10.trans (p11.trans (p12.trans (p13.trans (p14.trans (p15.trans (p16.trans (p17.trans (p18.trans (p19.trans (p20.trans (p21.trans p22)))))))))))))))))) sM1) (Shows_ext (p8.trans (p9.trans (p10.trans (p11.trans (p12.trans (p13.trans (p14.trans (p15.trans (p16.trans (p17.trans (p18.trans (p19.trans (p20.trans (p21.trans p22)))))))))))))) sM3)
    obtain ⟨Y2, h24, e24, p24, tY2, sY2⟩ := sub_shows sY1 (Shows_ext (p6.trans (p7.trans (p8.trans (p9.trans (p10.trans (p11.trans (p12.trans (p13.trans (p14.trans (p15.trans (p16.trans (p17.trans (p18.trans (p19.trans (p20.trans (p21.trans (p22.trans p23))))))))))))))))) sM2)
    obtain ⟨C22, h25, e25, p25, tC22, sC22⟩ := add_shows sY2 (Shows_ext (p15.trans (p16.trans (p17.trans (p18.trans (p19.trans (p20.trans (p21.trans (p22.trans (p23.trans p24))))))))) sM6)
    obtain ⟨C, h26, e26, p26, sqC, _⟩ := combine_shows grow (Shows_ext (p21.trans (p22.trans (p23.trans (p24.trans p25)))) sC11) (Shows_ext (p22.trans (p23.trans (p24.trans p25))) sC12) (Shows_ext (p23.trans (p24.trans p25)) sC21) sC22 tC11 tC21
    refine ⟨C, h26, ?_, (p1.trans (p2.trans (p3.trans (p4.trans (p5.trans (p6.trans (p7.trans (p8.trans (p9.trans (p10.trans (p11.trans (p12.trans (p13.trans (p14.trans (p15.trans (p16.trans (p17.trans (p18.trans (p19.trans (p20.trans (p21.trans (p22.trans (p23.trans (p24.trans (p25.trans p26))))))))))))))))))))))))), hpow ▸ sqC⟩
    rw [multiplyStrassenTrace, if_neg hlen]
    simp only [hdiv]
    refine (Res.bind_of_eq_ok eA _).trans ?_
    refine (Res.bind_of_eq_ok eB _).trans ?_
    refine (Res.bind_of_eq_ok e1 _).trans ?_
    refine (Res.bind_of_eq_ok e2 _).trans ?_
    refine (Res.bind_of_eq_ok e3 _).trans ?_
    refine (Res.bind_of_eq_ok e4 _).trans ?_
    refine (Res.bind_of_eq_ok e5 _).trans ?_
    refine (Res.bind_of_eq_ok e6 _).trans ?_
    refine (Res.bind_of_eq_ok e7 _).trans ?_
    refine (Res.bind_of_eq_ok e8 _).trans ?_
    refine (Res.bind_of_eq_ok e9 _).trans ?_
    refine (Res.bind_of_eq_ok e10 _).trans ?_
    refine (Res.bind_of_eq_ok e11 _).trans ?_
    refine (Res.bind_of_eq_ok e12 _).trans ?_
    refine (Res.bind_of_eq_ok e13 _).trans ?_
    refine (Res.bind_of_eq_ok e14 _).trans ?_
    refine (Res.bind_of_eq_ok e15 _).trans ?_
    refine (Res.bind_of_eq_ok e16 _).trans ?_
    refine (Res.bind_of_eq_ok e17 _).trans ?_
    refine (Res.bind_of_eq_ok e18 _).trans ?_
    refine (Res.bind_of_eq_ok e19 _).trans ?_
    refine (Res.bind_of_eq_ok e20 _).trans ?_
    refine (Res.bind_of_eq_ok e21 _).trans ?_
    refine (Res.bind_of_eq_ok e22 _).trans ?_
    refine (Res.bind_of_eq_ok e23 _).trans ?_
    refine (Res.bind_of_eq_ok e24 _).trans ?_
    refine (Res.bind_of_eq_ok e25 _).trans ?_
    refine (Res.bind_of_eq_ok e26 _).trans ?_
    rw [hAl]
    rfl

theorem endsAtBaseList_replicate (t : CallTree) (ht : t.endsAtBase = true) (n : Nat) :
    CallTree.endsAtBaseList (List.replicate n t) = true := by
  induction n with
  | zero => rfl
  | succ n ih => rw [List.replicate_succ, CallTree.endsAtBaseList, ht, ih]; rfl

theorem fullTree_endsAtBase (k : Nat) : (fullTree k).endsAtBase = true := by
  induction k with
  | zero => rfl
  | succ k ih =>
    rw [fullTree, CallTree.endsAtBase, endsAtBaseList_replicate _ ih]
    rfl

theorem erase_of_trace {grow : Nat → Nat → Nat} {fuel : Nat} {h h' : Heap} {A B C : Matrix}
    {t : CallTree} (e : multiplyStrassenTrace grow fuel h A B = .ok ((C, h'), t)) :
    multiplyStrassen grow fuel h A B = .ok (C, h') := by
  rw [← trace_erase, e]
  rfl

/-! ### One Strassen step on entry functions -/

theorem isProduct_shows {h : Heap} {M : Matrix} {m : Nat} {f g : Nat → Nat → Int}
    (hM : IsProduct h M m f g) : Shows h M m (mulF m f g) :=
  ⟨hM.1, fun i j hi hj => by rw [hM.2 i hi j hj, dot64_eq]; rfl⟩

theorem strassen8_11 (m : Nat) (a11 a12 a22 b11 b21 b22 : Nat → Nat → Int) (i j : Nat) :
    addF (subF (addF (mulF m (addF a11 a22) (addF b11 b22)) (mulF m a22 (subF b21 b11)))
        (mulF m (addF a11 a12) b22)) (mulF m (subF a12 a22) (addF b21 b22)) i j
      = naiveBlock m a11 b11 a12 b21 i j := by
  simp only [addF, subF, mulF, naiveBlock, dot64_eq]
  apply wrap64_congr
  push_cast [cast_wrap64]
  simp only [← Finset.sum_add_distrib, ← Finset.sum_sub_distrib]
  apply Finset.sum_congr rfl
  intro l _
  ring

theorem strassen8_12 (m : Nat) (a11 a12 b12 b22 : Nat → Nat → Int) (i j : Nat) :
    addF (mulF m a11 (subF b12 b22)) (mulF m (addF a11 a12) b22) i j
      = naiveBlock m a11 b12 a12 b22 i j := by
  simp only [addF, subF, mulF, naiveBlock, dot64_eq]
  apply wrap64_congr
  push_cast [cast_wrap64]
  simp only [← Finset.sum_add_distrib, ← Finset.sum_sub_distrib]
  apply Finset.sum_congr rfl
  intro l _
  ring

theorem strassen8_21 (m : Nat) (a21 a22 b11 b21 : Nat → Nat → Int) (i j : Nat) :
    addF (mulF m (addF a21 a22) b11) (mulF m a22 (subF b21 b11)) i j
      = naiveBlock m a21 b11 a22 b21 i j := by
  simp only [addF, subF, mulF, naiveBlock, dot64_eq]
  apply wrap64_congr
  push_cast [cast_wrap64]
  simp only [← Finset.sum_add_distrib, ← Finset.sum_sub_distrib]
  apply Finset.sum_congr rfl
  intro l _
  ring

theorem strassen8_22 (m : Nat) (a11 a21 a22 b11 b12 b22 : Nat → Nat → Int) (i j : Nat) :
    addF (subF (addF (mulF m (addF a11 a22) (addF b11 b22)) (mulF m a11 (subF b12 b22)))
        (mulF m (addF a21 a22) b11)) (mulF m (subF a21 a11) (addF b11 b12)) i j
      = naiveBlock m a21 b12 a22 b22 i j := by
  simp only [addF, subF, mulF, naiveBlock, dot64_eq]
  apply wrap64_congr
  push_cast [cast_wrap64]
  simp only [← Finset.sum_add_distrib, ← Finset.sum_sub_distrib]
  apply Finset.sum_congr rfl
  intro l _
  ring

/-! ### The shape of the recursive branch -/

theorem Res.bind_congr {α β : Type} (x : Res α) (F G : α → Res β)
    (hFG : ∀ a, F a = G a) : (x >>= F) = (x >>= G) := by
  cases x with
  | ok a => exact hFG a
  | panic => rfl
  | outOfFuel => rfl

theorem Res.bind_assoc {α β γ : Type} (x : Res α) (F : α → Res β) (G : β → Res γ) :
    ((x >>= F) >>= G) = (x >>= fun a => F a >>= G) := by
  cases x <;> rfl

/-- The recursive branch of `multiplyStrassen` is: split, the seven products, the
combination step `strassenQuadrants`, `combineMat`. -/
theorem multiplyStrassen_unfold (grow : Nat → Nat → Nat) (fuel : Nat) (h : Heap)
    (A B : Matrix) (hlen : ¬ A.length = 1) :
    multiplyStrassen grow (fuel + 1) h A B
      = (do
        let (A11, A12, A21, A22) ← splitMat A (A.length / 2)
        let (B11, B12, B21, B22) ← splitMat B (A.length / 2)
        let (S1, h) ← addMat h A11 A22
        let (T1, h) ← addMat h B11 B22
        let (M1, h) ← multiplyStrassen grow fuel h S1 T1
        let (S2, h) ← addMat h A21 A22
        let (M2, h) ← multiplyStrassen grow fuel h S2 B11
        let (T3, h) ← subMat h B12 B22
        let (M3, h) ← multiplyStrassen grow fuel h A11 T3
        let (T4, h) ← subMat h B21 B11
        let (M4, h) ← multiplyStrassen grow fuel h A22 T4
        let (S5, h) ← addMat h A11 A12
        let (M5, h) ← multiplyStrassen grow fuel h S5 B22
        let (S6, h) ← subMat h A21 A11
        let (T6, h) ← addMat h B11 B12
        let (M6, h) ← multiplyStrassen grow fuel h S6 T6
        let (S7, h) ← subMat h A12 A22
        let (T7, h) ← addMat h B21 B22
        let (M7, h) ← multiplyStrassen grow fuel h S7 T7
        let ((C11, C12, C21, C22), h) ← strassenQuadrants h M1 M2 M3 M4 M5 M6 M7
        combineMat grow h C11 C12 C21 C22) := by
  rw [multiplyStrassen, if_neg hlen]
  refine Res.bind_congr _ _ _ (fun x => ?_)
  obtain ⟨A11, A12, A21, A22⟩ := x
  refine Res.bind_congr _ _ _ (fun x => ?_)
  obtain ⟨B11, B12, B21, B22⟩ := x
  refine Res.bind_congr _ _ _ (fun x => ?_)
  obtain ⟨S1, h⟩ := x
  refine Res.bind_congr _ _ _ (fun x => ?_)
  obtain ⟨T1, h⟩ := x
  refine Res.bind_congr _ _ _ (fun x => ?_)
  obtain ⟨M1, h⟩ := x
  refine Res.bind_congr _ _ _ (fun x => ?_)
  obtain ⟨S2, h⟩ := x
  refine Res.bind_congr _ _ _ (fun x => ?_)
  obtain ⟨M2, h⟩ := x
  refine Res.bind_congr _ _ _ (fun x => ?_)
  obtain ⟨T3, h⟩ := x
  refine Res.bind_congr _ _ _ (fun x => ?_)
  obtain ⟨M3, h⟩ := x
  refine Res.bind_congr _ _ _ (fun x => ?_)
  obtain ⟨T4, h⟩ := x
  refine Res.bind_congr _ _ _ (fun x => ?_)
  obtain ⟨M4, h⟩ := x
  refine Res.bind_congr _ _ _ (fun x => ?_)
  obtain ⟨S5, h⟩ := x
  refine Res.bind_congr _ _ _ (fun x => ?_)
  obtain ⟨M5, h⟩ := x
  refine Res.bind_congr _ _ _ (fun x => ?_)
  obtain ⟨S6, h⟩ := x
  refine Res.bind_congr _ _ _ (fun x => ?_)
  obtain ⟨T6, h⟩ := x
  refine Res.bind_congr _ _ _ (fun x => ?_)
  obtain ⟨M6, h⟩ := x
  refine Res.bind_congr _ _ _ (fun x => ?_)
  obtain ⟨S7, h⟩ := x
  refine Res.bind_congr _ _ _ (fun x => ?_)
  obtain ⟨T7, h⟩ := x
  refine Res.bind_congr _ _ _ (fun x => ?_)
  obtain ⟨M7, h⟩ := x
  symm
  unfold strassenQuadrants
  refine (Res.bind_assoc _ _ _).trans ?_
  refine Res.bind_congr _ _ _ (fun x => ?_)
  obtain ⟨X1, h⟩ := x
  refine (Res.bind_assoc _ _ _).trans ?_
  refine Res.bind_congr _ _ _ (fun x => ?_)
  obtain ⟨X2, h⟩ := x
  refine (Res.bind_assoc _ _ _).trans ?_
  refine Res.bind_congr _ _ _ (fun x => ?_)
  obtain ⟨C11, h⟩ := x
  refine (Res.bind_assoc _ _ _).trans ?_
  refine Res.bind_congr _ _ _ (fun x => ?_)
  obtain ⟨C12, h⟩ := x
  refine (Res.bind_assoc _ _ _).trans ?_
  refine Res.bind_congr _ _ _ (fun x => ?_)
  obtain ⟨C21, h⟩ := x
  refine (Res.bind_assoc _ _ _).trans ?_
  refine Res.bind_congr _ _ _ (fun x => ?_)
  obtain ⟨Y1, h⟩ := x
  refine (Res.bind_assoc _ _ _).trans ?_
  refine Res.bind_congr _ _ _ (fun x => ?_)
  obtain ⟨Y2, h⟩ := x
  refine (Res.bind_assoc _ _ _).trans ?_
  refine Res.bind_congr _ _ _ (fun x => ?_)
  obtain ⟨C22, h⟩ := x
  rfl

/-! ### Rows that `combineMat` allocates -/

theorem append_new_arr (grow : Nat → Nat → Nat) (h : Heap) {s t : Slice}
    (hc : ¬ s.len + t.len ≤ s.cap) :
    (append grow h s t).1.arr = h.length ∧ h <+: (append grow h s t).2 := by
  simp only [append, if_neg hc]
  exact ⟨trivial, ⟨_, rfl⟩⟩

theorem combineRows_new (grow : Nat → Nat → Nat) {h : Heap} {A11 A12 A21 A22 : Matrix}
    {m : Nat} (h11 : IsSquare h A11 m) (h12 : IsSquare h A12 m) (h21 : IsSquare h A21 m)
    (h22 : IsSquare h A22 m) (t11 : Tight A11) (t21 : Tight A21) :
    ∀ i, i ≤ m → ∃ top bot h', combineRows grow h A11 A12 A21 A22 i = .ok (top, bot, h') ∧
      h <+: h' ∧ (∀ s ∈ top, h.length ≤ s.arr) ∧ (∀ s ∈ bot, h.length ≤ s.arr) := by
  intro i
  induction i with
  | zero =>
    intro _
    exact ⟨[], [], h, rfl, List.prefix_refl h, by simp, by simp⟩
  | succ i ih =>
    intro hi
    obtain ⟨top, bot, h1, e, hp, ftop, fbot⟩ := ih (by omega)
    have i11 : i < A11.length := by rw [h11.1]; omega
    have i12 : i < A12.length := by rw [h12.1]; omega
    have i21 : i < A21.length := by rw [h21.1]; omega
    have i22 : i < A22.length := by rw [h22.1]; omega
    have ra := h11.2 _ (getD_mem i11)
    have rb := h12.2 _ (getD_mem i12)
    have rc := h21.2 _ (getD_mem i21)
    have rd := h22.2 _ (getD_mem i22)
    have ca := t11 _ (getD_mem i11)
    have cc := t21 _ (getD_mem i21)
    have f1 := append_new_arr grow h1 (s := A11.getD i nilSlice) (t := A12.getD i nilSlice)
      (by rw [ra.2, rb.2, ca, ra.2]; omega)
    have es : combineRows grow h A11 A12 A21 A22 (i + 1) = .ok
        (top ++ [(append grow h1 (A11.getD i nilSlice) (A12.getD i nilSlice)).1],
         bot ++ [(append grow (append grow h1 (A11.getD i nilSlice) (A12.getD i nilSlice)).2
            (A21.getD i nilSlice) (A22.getD i nilSlice)).1],
         (append grow (append grow h1 (A11.getD i nilSlice) (A12.getD i nilSlice)).2
            (A21.getD i nilSlice) (A22.getD i nilSlice)).2) := by
      simp only [combineRows, e, Res.ok_bind, rowAt_ok i11, rowAt_ok i12, rowAt_ok i21,
        rowAt_ok i22, Res.pure_eq]
    generalize append grow h1 (A11.getD i nilSlice) (A12.getD i nilSlice) = p1 at f1 es
    obtain ⟨r1, h2⟩ := p1
    have f2 := append_new_arr grow h2 (s := A21.getD i nilSlice) (t := A22.getD i nilSlice)
      (by rw [rc.2, rd.2, cc, rc.2]; omega)
    generalize append grow h2 (A21.getD i nilSlice) (A22.getD i nilSlice) = p2 at f2 es
    obtain ⟨r2, h3⟩ := p2
    simp only at f1 f2
    have l1 := hp.length_le
    have l2 := f1.2.length_le
    refine ⟨top ++ [r1], bot ++ [r2], h3, es, hp.trans (f1.2.trans f2.2), ?_, ?_⟩
    · intro s hs
      rcases List.mem_append.1 hs with hs | hs
      · exact ftop s hs
      · rw [List.mem_singleton] at hs
        subst hs
        rw [f1.1]
        exact l1
    · intro s hs
      rcases List.mem_append.1 hs with hs | hs
      · exact fbot s hs
      · rw [List.mem_singleton] at hs
        subst hs
        rw [f2.1]
        omega

/-! ### Statements about the program, continued -/

/-- C11: for one-by-one matrices `[[a]]` and `[[b]]`, `multiplyStrassen` returns the
one-by-one matrix `[[a * b]]` (wrapped 64-bit product); fuel for a single call
suffices, so no recursive call is made. -/
theorem multiplyStrassen_one_by_one (grow : Nat → Nat → Nat) (h : Heap) (A B : Matrix)
    (hA : IsSquare h A 1) (hB : IsSquare h B 1) :
    ∃ C h', multiplyStrassen grow 1 h A B = .ok (C, h') ∧
      matVal h' C = [[wrap64 (ent h A 0 0 * ent h B 0 0)]] := by
  have es := strassen_base grow hA hB 0
  have ha := alloc_spec h [wrap64 (ent h A 0 0 * ent h B 0 0)]
  generalize alloc h [wrap64 (ent h A 0 0 * ent h B 0 0)] = p at ha es
  obtain ⟨s, h1⟩ := p
  refine ⟨[s], h1, es, ?_⟩
  simp only [matVal, List.map_cons, List.map_nil]
  rw [ha.2.2.2.2]

/-- Witness of C11: `[[6]]` times `[[7]]` is `[[42]]`. -/
theorem multiplyStrassen_one_by_one_witness :
    (IsSquare unitHeap unitA 1 ∧ IsSquare unitHeap unitB 1) ∧
    (∃ C h', multiplyStrassen growExact 1 unitHeap unitA unitB = .ok (C, h') ∧
      matVal h' C = [[wrap64 (ent unitHeap unitA 0 0 * ent unitHeap unitB 0 0)]]) ∧
    resultVal (multiplyStrassen growExact 1 unitHeap unitA unitB) = some [[42]] :=
  ⟨⟨by decide, by decide⟩,
    multiplyStrassen_one_by_one growExact unitHeap unitA unitB (by decide) (by decide),
    by decide⟩

/-- C12: for square matrices `A` and `B` of the same order `2 ^ k` the recursion of
`multiplyStrassen` terminates (fuel beyond `k` gives a result); in its call tree
every recursive call is on a first argument of exactly half the length of its
caller's, starting from `2 ^ k`, and every branch ends in a call that took the
base case. -/
theorem multiplyStrassen_terminates (grow : Nat → Nat → Nat) (k fuel : Nat) (h : Heap)
    (A B : Matrix) (hf : k < fuel) (hA : IsSquare h A (2 ^ k)) (hB : IsSquare h B (2 ^ k)) :
    ∃ C h' t, multiplyStrassenTrace grow fuel h A B = .ok ((C, h'), t) ∧
      multiplyStrassen grow fuel h A B = .ok (C, h') ∧
      t.order = 2 ^ k ∧ t.halving = true ∧ t.endsAtBase = true := by
  obtain ⟨C, h', e, _, _⟩ := strassenTrace_full grow k fuel h A B hf hA hB
  exact ⟨C, h', fullTree k, e, erase_of_trace e, fullTree_order k, fullTree_halving k,
    fullTree_endsAtBase k⟩

/-- Witness of C12 on `[[1,2],[3,4]]` and `[[5,6],[7,8]]`. -/
theorem multiplyStrassen_terminates_witness :
    (1 < 2 ∧ IsSquare exHeap exA (2 ^ 1) ∧ IsSquare exHeap exB (2 ^ 1)) ∧
    ∃ C h' t, multiplyStrassenTrace growExact 2 exHeap exA exB = .ok ((C, h'), t) ∧
      multiplyStrassen growExact 2 exHeap exA exB = .ok (C, h') ∧
      t.order = 2 ^ 1 ∧ t.halving = true ∧ t.endsAtBase = true :=
  ⟨⟨by decide, by decide, by decide⟩,
    multiplyStrassen_terminates growExact 1 2 exHeap exA exB (by decide) (by decide)
      (by decide)⟩

/-- C13: on square matrices of the same order `2 ^ k` the engine never panics: no
index and no slice bound is out of range, whatever the fuel, and with fuel beyond
`k` it returns a matrix. -/
theorem multiplyStrassen_no_panic (grow : Nat → Nat → Nat) (k fuel : Nat) (h : Heap)
    (A B : Matrix) (hA : IsSquare h A (2 ^ k)) (hB : IsSquare h B (2 ^ k)) :
    multiplyStrassen grow fuel h A B ≠ .panic ∧
    (k < fuel → ∃ C h', multiplyStrassen grow fuel h A B = .ok (C, h')) := by
  constructor
  · by_cases hf : k < fuel
    · obtain ⟨C, h', e, _⟩ :=
        strassen_shows grow k fuel h A B _ _ hf (Shows_self hA) (Shows_self hB)
      rw [e]
      intro hc
      cases hc
    · rw [strassen_outOfFuel grow k fuel h A B (by omega) hA hB]
      intro hc
      cases hc
  · intro hf
    obtain ⟨C, h', e, _⟩ :=
      strassen_shows grow k fuel h A B _ _ hf (Shows_self hA) (Shows_self hB)
    exact ⟨C, h', e⟩

/-- Witness of C13 on `[[1,2],[3,4]]` and `[[5,6],[7,8]]`. -/
theorem multiplyStrassen_no_panic_witness :
    (IsSquare exHeap exA (2 ^ 1) ∧ IsSquare exHeap exB (2 ^ 1)) ∧
    multiplyStrassen growExact 2 exHeap exA exB ≠ .panic ∧
    (1 < 2 → ∃ C h', multiplyStrassen growExact 2 exHeap exA exB = .ok (C, h')) :=
  ⟨⟨by decide, by decide⟩,
    multiplyStrassen_no_panic growExact 1 2 exHeap exA exB (by decide) (by decide)⟩

/-- C14 (counterexample): the quadrants that `splitMat` returns for `[[1,2],[3,4]]`
lie in the arrays of the matrix.  Appending `[5]` to row 0 of the top-left
quadrant stays within its capacity and writes into the array of row 0: the
top-right quadrant, which read `[[2]]`, reads `[[5]]`, and the matrix reads
`[[1,5],[3,4]]`. -/
theorem splitMat_quadrants_share :
    splitMat cxM 1 = .ok (cxA11, cxA12, cxA21, cxA22) ∧
    matVal cxHeap cxA12 = [[2]] ∧ matVal cxHeap cxM = [[1, 2], [3, 4]] ∧
    (append growExact cxHeap (cxA11.getD 0 nilSlice) (cxP.getD 0 nilSlice)).1
      = ⟨0, 0, 2, 2⟩ ∧
    matVal (append growExact cxHeap (cxA11.getD 0 nilSlice) (cxP.getD 0 nilSlice)).2 cxA12
      = [[5]] ∧
    matVal (append growExact cxHeap (cxA11.getD 0 nilSlice) (cxP.getD 0 nilSlice)).2 cxM
      = [[1, 5], [3, 4]] := by
  decide

/-- C14 (amended): `splitMat` copies nothing.  For a square matrix `M` of even order
`n`, row `i` of `A11` and of `A12` are the slices `M[i][:n/2]` and `M[i][n/2:]` and
row `i` of `A21` and of `A22` the slices `M[i+n/2][:n/2]` and `M[i+n/2][n/2:]`, in
the backing arrays of `M`; and a call of `multiplyStrassen` on square matrices of
order `2 ^ k` only adds arrays to the heap, so that every slice that was there
before the call, the rows of `M` and of its quadrants among them, holds the
elements it held. -/
theorem splitMat_views (h : Heap) (M : Matrix) (n : Nat)
    (hM : IsSquare h M n) (hn : n % 2 = 0) :
    (∃ A11 A12 A21 A22, splitMat M (n / 2) = .ok (A11, A12, A21, A22) ∧
      ∀ i, i < n / 2 →
        A11.getD i nilSlice = leftHalf (M.getD i nilSlice) (n / 2) ∧
        A12.getD i nilSlice = rightHalf (M.getD i nilSlice) (n / 2) ∧
        A21.getD i nilSlice = leftHalf (M.getD (i + n / 2) nilSlice) (n / 2) ∧
        A22.getD i nilSlice = rightHalf (M.getD (i + n / 2) nilSlice) (n / 2)) ∧
    ∀ (grow : Nat → Nat → Nat) (k fuel : Nat) (A B : Matrix), k < fuel →
      IsSquare h A (2 ^ k) → IsSquare h B (2 ^ k) →
      ∃ C h', multiplyStrassen grow fuel h A B = .ok (C, h') ∧
        ∀ s, SliceOK h s → rowVal h' s = rowVal h s := by
  have h2 : n = 2 * (n / 2) := by omega
  constructor
  · rw [h2] at hM
    refine ⟨_, _, _, _, splitRows_spec hM (n / 2) (le_refl _), fun i hi => ?_⟩
    exact ⟨getD_map_range hi, getD_map_range hi, getD_map_range hi, getD_map_range hi⟩
  · intro grow k fuel A B hf hA hB
    obtain ⟨C, h', e, hp, _⟩ :=
      strassen_shows grow k fuel h A B _ _ hf (Shows_self hA) (Shows_self hB)
    exact ⟨C, h', e, fun s hs => rowVal_ext hp hs⟩

/-- Witness of C14 (amended) on `[[1,2],[3,4]]`. -/
theorem splitMat_views_witness :
    (IsSquare exHeap exA 2 ∧ 2 % 2 = 0) ∧
    (∃ A11 A12 A21 A22, splitMat exA (2 / 2) = .ok (A11, A12, A21, A22) ∧
      ∀ i, i < 2 / 2 →
        A11.getD i nilSlice = leftHalf (exA.getD i nilSlice) (2 / 2) ∧
        A12.getD i nilSlice = rightHalf (exA.getD i nilSlice) (2 / 2) ∧
        A21.getD i nilSlice = leftHalf (exA.getD (i + 2 / 2) nilSlice) (2 / 2) ∧
        A22.getD i nilSlice = rightHalf (exA.getD (i + 2 / 2) nilSlice) (2 / 2)) ∧
    ∀ (grow : Nat → Nat → Nat) (k fuel : Nat) (A B : Matrix), k < fuel →
      IsSquare exHeap A (2 ^ k) → IsSquare exHeap B (2 ^ k) →
      ∃ C h', multiplyStrassen grow fuel exHeap A B = .ok (C, h') ∧
        ∀ s, SliceOK exHeap s → rowVal h' s = rowVal exHeap s :=
  ⟨⟨by decide, by decide⟩, splitMat_views exHeap exA 2 (by decide) (by decide)⟩

/-- C15 (counterexample): combining the left quadrants of `[[1,2],[3,4]]` with the
right quadrants of `[[5,6],[7,8]]`, all four as `splitMat` returns them, allocates
nothing: both appends stay within the capacity of the left rows and write into
the arrays of the first matrix, which then reads `[[1,6],[3,8]]`; the rows of the
result are those arrays. -/
theorem combineMat_extends_in_place :
    (∃ A12 A22, splitMat exA 1 = .ok (exA11, A12, exA21, A22)) ∧
    (∃ B11 B21, splitMat exB 1 = .ok (B11, exB12, B21, exB22)) ∧
    matVal exHeap exA = [[1, 2], [3, 4]] ∧
    ∃ C h', combineMat growExact exHeap exA11 exB12 exA21 exB22 = .ok (C, h') ∧
      C = exA ∧ h'.length = exHeap.length ∧ matVal h' exA = [[1, 6], [3, 8]] :=
  ⟨⟨[⟨0, 1, 1, 1⟩], [⟨1, 1, 1, 1⟩], by decide⟩, ⟨[⟨2, 0, 1, 2⟩], [⟨3, 0, 1, 2⟩], by decide⟩,
    by decide,
    exA, [[1, 6], [3, 8], [5, 6], [7, 8], [1, 0], [0, 1]], by decide, rfl, by decide,
    by decide⟩

/-- C15 (amended): for four square matrices of the same order `m` in which no row of
`C11` and of `C21` has capacity beyond its length, `combineMat` puts every row of
its result into a new array and only adds arrays to the heap: every slice that
was there before the call holds the elements it held, and the rows of the result
are the concatenations of the rows of the arguments. -/
theorem combineMat_allocates (grow : Nat → Nat → Nat) (h : Heap) (C11 C12 C21 C22 : Matrix)
    (m : Nat) (h11 : IsSquare h C11 m) (h12 : IsSquare h C12 m) (h21 : IsSquare h C21 m)
    (h22 : IsSquare h C22 m) (t11 : Tight C11) (t21 : Tight C21) :
    ∃ C h', combineMat grow h C11 C12 C21 C22 = .ok (C, h') ∧
      (∀ s ∈ C, h.length ≤ s.arr) ∧
      (∀ s, SliceOK h s → rowVal h' s = rowVal h s) ∧
      ∀ i, i < m →
        rowVal h' (C.getD i nilSlice)
          = rowVal h (C11.getD i nilSlice) ++ rowVal h (C12.getD i nilSlice) ∧
        rowVal h' (C.getD (i + m) nilSlice)
          = rowVal h (C21.getD i nilSlice) ++ rowVal h (C22.getD i nilSlice) := by
  obtain ⟨C, h', e, hp, _, hv⟩ := combine_spec grow h11 h12 h21 h22 t11 t21
  obtain ⟨top, bot, h2, e2, _, ftop, fbot⟩ :=
    combineRows_new grow h11 h12 h21 h22 t11 t21 m (le_refl m)
  refine ⟨C, h', e, ?_, fun s hs => rowVal_ext hp hs, hv⟩
  have e3 : combineMat grow h C11 C12 C21 C22 = .ok (top ++ bot, h2) := by
    simp only [combineMat, h11.1, e2, Res.ok_bind, Res.pure_eq]
  rw [e] at e3
  injection e3 with e4
  injection e4 with e5 _
  subst e5
  intro s hs
  rcases List.mem_append.1 hs with hs | hs
  · exact ftop s hs
  · exact fbot s hs

/-- Witness of C15 (amended): combining `[[5]]`, `[[6]]`, `[[6]]`, `[[5]]`. -/
theorem combineMat_allocates_witness :
    (IsSquare cxHeap cxP 1 ∧ IsSquare cxHeap cxQ 1 ∧ Tight cxP ∧ Tight cxQ) ∧
    ∃ C h', combineMat growExact cxHeap cxP cxQ cxQ cxP = .ok (C, h') ∧
      (∀ s ∈ C, cxHeap.length ≤ s.arr) ∧
      (∀ s, SliceOK cxHeap s → rowVal h' s = rowVal cxHeap s) ∧
      ∀ i, i < 1 →
        rowVal h' (C.getD i nilSlice)
          = rowVal cxHeap (cxP.getD i nilSlice) ++ rowVal cxHeap (cxQ.getD i nilSlice) ∧
        rowVal h' (C.getD (i + 1) nilSlice)
          = rowVal cxHeap (cxQ.getD i nilSlice) ++ rowVal cxHeap (cxP.getD i nilSlice) :=
  ⟨⟨by decide, by decide, by decide, by decide⟩,
    combineMat_allocates growExact cxHeap cxP cxQ cxQ cxP 1 (by decide) (by decide)
      (by decide) (by decide) (by decide) (by decide)⟩

/-- C17: one level of the Strassen step equals the naive eight-product formula.
For entry functions `a11 .. b22` of eight quadrants of order `m`, if `M1 .. M7` are
the true products of the seven operand pairs of `multiplyStrassen`, the
combination step returns four square matrices of order `m` with
`C11 = a11*b11 + a12*b21`, `C12 = a11*b12 + a12*b22`, `C21 = a21*b11 + a22*b21` and
`C22 = a21*b12 + a22*b22`, in wrapping 64-bit arithmetic. -/
theorem strassenQuadrants_eq_naive (h : Heap) (m : Nat)
    (a11 a12 a21 a22 b11 b12 b21 b22 : Nat → Nat → Int) (M1 M2 M3 M4 M5 M6 M7 : Matrix)
    (h1 : IsProduct h M1 m (addF a11 a22) (addF b11 b22))
    (h2 : IsProduct h M2 m (addF a21 a22) b11)
    (h3 : IsProduct h M3 m a11 (subF b12 b22))
    (h4 : IsProduct h M4 m a22 (subF b21 b11))
    (h5 : IsProduct h M5 m (addF a11 a12) b22)
    (h6 : IsProduct h M6 m (subF a21 a11) (addF b11 b12))
    (h7 : IsProduct h M7 m (subF a12 a22) (addF b21 b22)) :
    ∃ C11 C12 C21 C22 h', strassenQuadrants h M1 M2 M3 M4 M5 M6 M7
        = .ok ((C11, C12, C21, C22), h') ∧
      IsSquare h' C11 m ∧ IsSquare h' C12 m ∧ IsSquare h' C21 m ∧ IsSquare h' C22 m ∧
      ∀ i j, i < m → j < m →
        ent h' C11 i j = naiveBlock m a11 b11 a12 b21 i j ∧
        ent h' C12 i j = naiveBlock m a11 b12 a12 b22 i j ∧
        ent h' C21 i j = naiveBlock m a21 b11 a22 b21 i j ∧
        ent h' C22 i j = naiveBlock m a21 b12 a22 b22 i j := by
  have sM1 := isProduct_shows h1
  have sM2 := isProduct_shows h2
  have sM3 := isProduct_shows h3
  have sM4 := isProduct_shows h4
  have sM5 := isProduct_shows h5
  have sM6 := isProduct_shows h6
  have sM7 := isProduct_shows h7
  obtain ⟨X1, g1, e1, p1, _, sX1⟩ := add_shows sM1 sM4
  obtain ⟨X2, g2, e2, p2, _, sX2⟩ := sub_shows sX1 (Shows_ext p1 sM5)
  obtain ⟨C11, g3, e3, p3, _, sC11⟩ := add_shows sX2 (Shows_ext (p1.trans p2) sM7)
  have q3 := p1.trans (p2.trans p3)
  obtain ⟨C12, g4, e4, p4, _, sC12⟩ := add_shows (Shows_ext q3 sM3) (Shows_ext q3 sM5)
  have q4 := q3.trans p4
  obtain ⟨C21, g5, e5, p5, _, sC21⟩ := add_shows (Shows_ext q4 sM2) (Shows_ext q4 sM4)
  have q5 := q4.trans p5
  obtain ⟨Y1, g6, e6, p6, _, sY1⟩ := add_shows (Shows_ext q5 sM1) (Shows_ext q5 sM3)
  have q6 := q5.trans p6
  obtain ⟨Y2, g7, e7, p7, _, sY2⟩ := sub_shows sY1 (Shows_ext q6 sM2)
  have q7 := q6.trans p7
  obtain ⟨C22, g8, e8, p8, _, sC22⟩ := add_shows sY2 (Shows_ext q7 sM6)
  have r11 := Shows_ext (p4.trans (p5.trans (p6.trans (p7.trans p8)))) sC11
  have r12 := Shows_ext (p5.trans (p6.trans (p7.trans p8))) sC12
  have r21 := Shows_ext (p6.trans (p7.trans p8)) sC21
  refine ⟨C11, C12, C21, C22, g8, ?_, r11.1, r12.1, r21.1, sC22.1, fun i j hi hj => ?_⟩
  · unfold strassenQuadrants
    refine (Res.bind_of_eq_ok e1 _).trans ?_
    refine (Res.bind_of_eq_ok e2 _).trans ?_
    refine (Res.bind_of_eq_ok e3 _).trans ?_
    refine (Res.bind_of_eq_ok e4 _).trans ?_
    refine (Res.bind_of_eq_ok e5 _).trans ?_
    refine (Res.bind_of_eq_ok e6 _).trans ?_
    refine (Res.bind_of_eq_ok e7 _).trans ?_
    refine (Res.bind_of_eq_ok e8 _).trans ?_
    rfl
  · rw [r11.2 i j hi hj, r12.2 i j hi hj, r21.2 i j hi hj, sC22.2 i j hi hj]
    exact ⟨strassen8_11 m a11 a12 a22 b11 b21 b22 i j, strassen8_12 m a11 a12 b12 b22 i j,
      strassen8_21 m a21 a22 b11 b21 i j, strassen8_22 m a11 a21 a22 b11 b12 b22 i j⟩

/-- Witness of C17: the quadrants `1 .. 8` of `[[1,2],[3,4]]` and `[[5,6],[7,8]]` and
their seven products give `19`, `22`, `43` and `50`. -/
theorem strassenQuadrants_eq_naive_witness :
    (IsProduct stepHeap (stepMat 8) 1
        (addF (ent stepHeap (stepMat 0)) (ent stepHeap (stepMat 3)))
        (addF (ent stepHeap (stepMat 4)) (ent stepHeap (stepMat 7))) ∧
      IsProduct stepHeap (stepMat 9) 1
        (addF (ent stepHeap (stepMat 2)) (ent stepHeap (stepMat 3)))
        (ent stepHeap (stepMat 4)) ∧
      IsProduct stepHeap (stepMat 10) 1 (ent stepHeap (stepMat 0))
        (subF (ent stepHeap (stepMat 5)) (ent stepHeap (stepMat 7))) ∧
      IsProduct stepHeap (stepMat 11) 1 (ent stepHeap (stepMat 3))
        (subF (ent stepHeap (stepMat 6)) (ent stepHeap (stepMat 4))) ∧
      IsProduct stepHeap (stepMat 12) 1
        (addF (ent stepHeap (stepMat 0)) (ent stepHeap (stepMat 1)))
        (ent stepHeap (stepMat 7)) ∧
      IsProduct stepHeap (stepMat 13) 1
        (subF (ent stepHeap (stepMat 2)) (ent stepHeap (stepMat 0)))
        (addF (ent stepHeap (stepMat 4)) (ent stepHeap (stepMat 5))) ∧
      IsProduct stepHeap (stepMat 14) 1
        (subF (ent stepHeap (stepMat 1)) (ent stepHeap (stepMat 3)))
        (addF (ent stepHeap (stepMat 6)) (ent stepHeap (stepMat 7)))) ∧
    (∃ C11 C12 C21 C22 h', strassenQuadrants stepHeap (stepMat 8) (stepMat 9) (stepMat 10)
        (stepMat 11) (stepMat 12) (stepMat 13) (stepMat 14) = .ok ((C11, C12, C21, C22), h') ∧
      IsSquare h' C11 1 ∧ IsSquare h' C12 1 ∧ IsSquare h' C21 1 ∧ IsSquare h' C22 1 ∧
      ∀ i j, i < 1 → j < 1 →
        ent h' C11 i j = naiveBlock 1 (ent stepHeap (stepMat 0)) (ent stepHeap (stepMat 4))
          (ent stepHeap (stepMat 1)) (ent stepHeap (stepMat 6)) i j ∧
        ent h' C12 i j = naiveBlock 1 (ent stepHeap (stepMat 0)) (ent stepHeap (stepMat 5))
          (ent stepHeap (stepMat 1)) (ent stepHeap (stepMat 7)) i j ∧
        ent h' C21 i j = naiveBlock 1 (ent stepHeap (stepMat 2)) (ent stepHeap (stepMat 4))
          (ent stepHeap (stepMat 3)) (ent stepHeap (stepMat 6)) i j ∧
        ent h' C22 i j = naiveBlock 1 (ent stepHeap (stepMat 2)) (ent stepHeap (stepMat 5))
          (ent stepHeap (stepMat 3)) (ent stepHeap (stepMat 7)) i j) ∧
    naiveBlock 1 (ent stepHeap (stepMat 0)) (ent stepHeap (stepMat 4))
      (ent stepHeap (stepMat 1)) (ent stepHeap (stepMat 6)) 0 0 = 19 ∧
    naiveBlock 1 (ent stepHeap (stepMat 2)) (ent stepHeap (stepMat 5))
      (ent stepHeap (stepMat 3)) (ent stepHeap (stepMat 7)) 0 0 = 50 :=
  ⟨⟨by decide, by decide, by decide, by decide, by decide, by decide, by decide⟩,
    strassenQuadrants_eq_naive stepHeap 1 (ent stepHeap (stepMat 0)) (ent stepHeap (stepMat 1))
      (ent stepHeap (stepMat 2)) (ent stepHeap (stepMat 3)) (ent stepHeap (stepMat 4))
      (ent stepHeap (stepMat 5)) (ent stepHeap (stepMat 6)) (ent stepHeap (stepMat 7))
      (stepMat 8) (stepMat 9) (stepMat 10) (stepMat 11) (stepMat 12) (stepMat 13) (stepMat 14)
      (by decide) (by decide) (by decide) (by decide) (by decide) (by decide) (by decide),
    by decide, by decide⟩

/-- C18: for square matrices `A` and `B` of the same order `2 ^ k`, if every entry
of the exact product lies in the `int64` range, the engine returns (given fuel
beyond `k`) the exact product, whatever wrapped in between. -/
theorem multiplyStrassen_exact (grow : Nat → Nat → Nat) (k fuel : Nat) (h : Heap)
    (A B : Matrix) (hf : k < fuel) (hA : IsSquare h A (2 ^ k)) (hB : IsSquare h B (2 ^ k))
    (hr : ExactInRange h A B (2 ^ k)) :
    ∃ C h', multiplyStrassen grow fuel h A B = .ok (C, h') ∧ IsSquare h' C (2 ^ k) ∧
      ∀ i j, i < 2 ^ k → j < 2 ^ k →
        ent h' C i j = exactDot (fun l => ent h A i l) (fun l => ent h B l j) (2 ^ k) := by
  obtain ⟨C, h', e, _, sq, hv⟩ :=
    strassen_shows grow k fuel h A B _ _ hf (Shows_self hA) (Shows_self hB)
  refine ⟨C, h', e, sq, fun i j hi hj => ?_⟩
  have hin := hr i hi j hj
  rw [hv i j hi hj]
  rw [exactDot_eq] at hin ⊢
  exact wrap64_of_inRange hin

/-- Witness of C18: `[[2^62, 0], [0, 2^62]]` times the identity; the sum
`A11 + A22 = 2^63` wraps, the product is exact. -/
theorem multiplyStrassen_exact_witness :
    (IsSquare bigHeap bigA (2 ^ 1) ∧ IsSquare bigHeap bigI (2 ^ 1) ∧
      ExactInRange bigHeap bigA bigI (2 ^ 1)) ∧
    (∃ C h', multiplyStrassen growExact 2 bigHeap bigA bigI = .ok (C, h') ∧
      IsSquare h' C (2 ^ 1) ∧
      ∀ i j, i < 2 ^ 1 → j < 2 ^ 1 →
        ent h' C i j
          = exactDot (fun l => ent bigHeap bigA i l) (fun l => ent bigHeap bigI l j) (2 ^ 1)) ∧
    wrap64 (ent bigHeap bigA 0 0 + ent bigHeap bigA 1 1) = -9223372036854775808 ∧
    resultVal (multiplyStrassen growExact 2 bigHeap bigA bigI)
      = some [[4611686018427387904, 0], [0, 4611686018427387904]] :=
  ⟨⟨by decide, by decide, by decide⟩,
    multiplyStrassen_exact growExact 1 2 bigHeap bigA bigI (by decide) (by decide) (by decide)
      (by decide),
    by decide, by decide⟩

/-- C19: on empty matrices the engine never reaches its base case.  Splitting at
size zero gives four empty quadrants, sums and differences of empty matrices are
empty, so every recursive call is again on an empty first argument, and the call
runs out of every amount of fuel; the handler, which lets declared order zero
through, does not answer either. -/
theorem multiplyStrassen_empty_diverges (grow : Nat → Nat → Nat) (h : Heap) :
    isPowerOfTwo 0 = true ∧
    (∀ X : Matrix, splitMat X 0 = .ok ([], [], [], [])) ∧
    (∀ X : Matrix, addMat h [] X = .ok ([], h) ∧ subMat h [] X = .ok ([], h)) ∧
    (∀ fuel B, multiplyStrassen grow fuel h [] B = .outOfFuel) ∧
    (∀ fuel, multiplicationHandler grow fuel ⟨"POST", some [⟨0, []⟩, ⟨0, []⟩], h⟩
      = .outOfFuel) := by
  refine ⟨by decide, splitMat_zero, fun X => ⟨rfl, rfl⟩,
    fun fuel B => strassen_empty grow fuel h B, fun fuel => ?_⟩
  have hcond : (decide ((0 : Int) ≠ 0) || !isPowerOfTwo 0) = false := by decide
  simp only [multiplicationHandler, ne_eq, not_true_eq_false, if_false, hcond,
    strassen_empty grow fuel h []]
  rfl

/-- C20: for square matrices of the same order `2 ^ k` the call tree of
`multiplyStrassen` has depth exactly `k` (fuel up to `k` runs out, fuel beyond `k`
gives the result), every call that takes the recursive branch makes exactly seven
calls, and the number of base-case calls is `7 ^ k`. -/
theorem multiplyStrassen_call_tree (grow : Nat → Nat → Nat) (k : Nat) (h : Heap)
    (A B : Matrix) (hA : IsSquare h A (2 ^ k)) (hB : IsSquare h B (2 ^ k)) :
    (∀ fuel, fuel ≤ k → multiplyStrassen grow fuel h A B = .outOfFuel) ∧
    ∀ fuel, k < fuel →
      ∃ C h' t, multiplyStrassenTrace grow fuel h A B = .ok ((C, h'), t) ∧
        multiplyStrassen grow fuel h A B = .ok (C, h') ∧
        t.depth = k ∧ t.sevenfold = true ∧ t.leaves = 7 ^ k := by
  refine ⟨fun fuel hf => strassen_outOfFuel grow k fuel h A B hf hA hB, fun fuel hf => ?_⟩
  obtain ⟨C, h', e, _, _⟩ := strassenTrace_full grow k fuel h A B hf hA hB
  exact ⟨C, h', fullTree k, e, erase_of_trace e, fullTree_depth k, fullTree_sevenfold k,
    fullTree_leaves k⟩

/-- Witness of C20 on `[[1,2],[3,4]]` and `[[5,6],[7,8]]`: depth one, seven
base-case calls. -/
theorem multiplyStrassen_call_tree_witness :
    (IsSquare exHeap exA (2 ^ 1) ∧ IsSquare exHeap exB (2 ^ 1)) ∧
    (∀ fuel, fuel ≤ 1 → multiplyStrassen growExact fuel exHeap exA exB = .outOfFuel) ∧
    ∀ fuel, 1 < fuel →
      ∃ C h' t, multiplyStrassenTrace growExact fuel exHeap exA exB = .ok ((C, h'), t) ∧
        multiplyStrassen growExact fuel exHeap exA exB = .ok (C, h') ∧
        t.depth = 1 ∧ t.sevenfold = true ∧ t.leaves = 7 ^ 1 :=
  ⟨⟨by decide, by decide⟩,
    multiplyStrassen_call_tree growExact 1 exHeap exA exB (by decide) (by decide)⟩

end GoProjekt
